import Mathlib

/-!
Verification development for the `expire-cache` library: a lazy-expiring
cache (`ExpireCache`), a timer-expiring cache (`ExpireTimeoutCache`), an
abstract multi-tier cache engine (`TieredCache`) and its reference
strategy subclass (`DateTieredCache`).

The caches are backed by JavaScript `Map` objects.  `JsMap` below is a
shallow embedding of ECMA-262 Map semantics: the entry list keeps a slot
(in insertion order) per inserted key, deletion empties the slot in
place (the list keeps its shape), and a live iterator is an index into
the slot list that skips emptied slots.  This is exactly the mechanism
ECMA-262 prescribes so that iterators created before a mutation observe
later insertions and skip deletions.
-/

/-- A JavaScript `Map`: insertion-ordered slots, `none` marking a slot
whose entry has been deleted (ECMA-262 "empty" entries). -/
structure JsMap (K V : Type) where
  slots : List (Option (K × V))
deriving DecidableEq

namespace JsMap

variable {K V : Type} [DecidableEq K]

/-- The live entries of the map, in insertion order. -/
def alive (m : JsMap K V) : List (K × V) :=
  m.slots.filterMap id

/-- Lookup in an (insertion ordered) entry list. -/
def lookupList (l : List (K × V)) (k : K) : Option V :=
  match l with
  | [] => none
  | (k', v) :: rest => if k' = k then some v else lookupList rest k

/-- `Map.prototype.get`. -/
def get (m : JsMap K V) (k : K) : Option V :=
  lookupList m.alive k

/-- `Map.prototype.has`. -/
def hasKey (m : JsMap K V) (k : K) : Bool :=
  (m.get k).isSome

/-- `Map.prototype.size`. -/
def size (m : JsMap K V) : Nat :=
  m.alive.length

/-- `Map.prototype.keys` (as a completed list; live-iterator behaviour is
modelled separately via `iterNext`). -/
def keysList (m : JsMap K V) : List K :=
  m.alive.map Prod.fst

def setSlots (k : K) (v : V) : List (Option (K × V)) → List (Option (K × V))
  | [] => [some (k, v)]
  | none :: rest => none :: setSlots k v rest
  | some (k', v') :: rest =>
      if k' = k then some (k, v) :: rest else some (k', v') :: setSlots k v rest

/-- `Map.prototype.set`: update the live slot for `k` in place if one
exists, otherwise append a fresh slot. -/
def set (m : JsMap K V) (k : K) (v : V) : JsMap K V :=
  ⟨setSlots k v m.slots⟩

def deleteSlots (k : K) : List (Option (K × V)) → Bool × List (Option (K × V))
  | [] => (false, [])
  | none :: rest =>
      let r := deleteSlots k rest
      (r.1, none :: r.2)
  | some (k', v') :: rest =>
      if k' = k then (true, none :: rest)
      else
        let r := deleteSlots k rest
        (r.1, some (k', v') :: r.2)

/-- `Map.prototype.delete`: empty the live slot for `k` (keeping the slot
list's shape, as ECMA-262 does) and report whether an entry existed. -/
def delete (m : JsMap K V) (k : K) : Bool × JsMap K V :=
  let r := deleteSlots k m.slots
  (r.1, ⟨r.2⟩)

/-- `Map.prototype.clear`: every entry slot is emptied in place. -/
def clear (m : JsMap K V) : JsMap K V :=
  ⟨m.slots.map (fun _ => none)⟩

/-- The empty map. -/
def empty : JsMap K V := ⟨[]⟩

/-- One step of a live map iterator positioned at slot index `i`: find the
first live slot at or after `i`, returning its entry and the index just
past it.  Mutations between steps are visible because each step reads the
map's current slot list. -/
def iterNext (m : JsMap K V) (i : Nat) : Option ((K × V) × Nat) :=
  go (m.slots.drop i) i
where
  go : List (Option (K × V)) → Nat → Option ((K × V) × Nat)
    | [], _ => none
    | none :: rest, j => go rest (j + 1)
    | some e :: _, j => some (e, j + 1)

/-- Well-formedness: the live entries have pairwise distinct keys.  Every
map built by the cache operations satisfies this. -/
def WF (m : JsMap K V) : Prop :=
  (m.alive.map Prod.fst).Nodup

instance (m : JsMap K V) : Decidable (WF m) := by
  unfold WF; infer_instance

/-- Effect of `set` on the live entry list: replace the first binding of
`k` or append one. -/
def updList (k : K) (v : V) : List (K × V) → List (K × V)
  | [] => [(k, v)]
  | (k', v') :: rest =>
      if k' = k then (k, v) :: rest else (k', v') :: updList k v rest

/-- Effect of `delete` on the live entry list: drop the first binding. -/
def remList (k : K) : List (K × V) → List (K × V)
  | [] => []
  | (k', v') :: rest =>
      if k' = k then rest else (k', v') :: remList k rest

theorem alive_set (m : JsMap K V) (k : K) (v : V) :
    (m.set k v).alive = updList k v m.alive := by
  show (setSlots k v m.slots).filterMap id = updList k v (m.slots.filterMap id)
  induction m.slots with
  | nil => simp [setSlots, updList]
  | cons hd tl ih =>
    cases hd with
    | none => simpa [setSlots] using ih
    | some e =>
      obtain ⟨k', v'⟩ := e
      by_cases h : k' = k <;> simp [setSlots, updList, h, ih]

theorem alive_delete (m : JsMap K V) (k : K) :
    (m.delete k).2.alive = remList k m.alive := by
  show ((deleteSlots k m.slots).2).filterMap id = remList k (m.slots.filterMap id)
  induction m.slots with
  | nil => simp [deleteSlots, remList]
  | cons hd tl ih =>
    cases hd with
    | none => simpa [deleteSlots] using ih
    | some e =>
      obtain ⟨k', v'⟩ := e
      by_cases h : k' = k <;> simp [deleteSlots, remList, h, ih]

theorem delete_fst (m : JsMap K V) (k : K) :
    (m.delete k).1 = (m.get k).isSome := by
  show (deleteSlots k m.slots).1 = (lookupList (m.slots.filterMap id) k).isSome
  induction m.slots with
  | nil => simp [deleteSlots, lookupList]
  | cons hd tl ih =>
    cases hd with
    | none => simpa [deleteSlots] using ih
    | some e =>
      obtain ⟨k', v'⟩ := e
      by_cases h : k' = k <;> simp [deleteSlots, lookupList, h, ih]

theorem alive_clear (m : JsMap K V) : (clear m).alive = ([] : List (K × V)) := by
  show (m.slots.map (fun _ => none)).filterMap id = _
  induction m.slots with
  | nil => rfl
  | cons hd tl ih => simpa using ih

theorem lookup_not_mem (l : List (K × V)) (k : K) (h : k ∉ l.map Prod.fst) :
    lookupList l k = none := by
  induction l with
  | nil => rfl
  | cons hd tl ih =>
    obtain ⟨k₀, v₀⟩ := hd
    simp only [List.map_cons, List.mem_cons, not_or] at h
    simp only [lookupList, if_neg (fun hh : k₀ = k => h.1 hh.symm)]
    exact ih h.2

theorem lookup_updList_self (l : List (K × V)) (k : K) (v : V) :
    lookupList (updList k v l) k = some v := by
  induction l with
  | nil => simp [updList, lookupList]
  | cons hd tl ih =>
    obtain ⟨k', v'⟩ := hd
    by_cases h : k' = k <;> simp [updList, lookupList, h, ih]

theorem lookup_updList_ne (l : List (K × V)) (k k' : K) (v : V) (h : k' ≠ k) :
    lookupList (updList k v l) k' = lookupList l k' := by
  induction l with
  | nil => simp [updList, lookupList, Ne.symm h]
  | cons hd tl ih =>
    obtain ⟨k₀, v₀⟩ := hd
    by_cases h₀ : k₀ = k
    · subst h₀
      simp [updList, lookupList, Ne.symm h]
    · simp [updList, lookupList, h₀, ih]

theorem get_set_self (m : JsMap K V) (k : K) (v : V) :
    (m.set k v).get k = some v := by
  show lookupList (m.set k v).alive k = some v
  rw [alive_set]
  exact lookup_updList_self m.alive k v

theorem get_set_ne (m : JsMap K V) (k k' : K) (v : V) (h : k' ≠ k) :
    (m.set k v).get k' = m.get k' := by
  show lookupList (m.set k v).alive k' = lookupList m.alive k'
  rw [alive_set]
  exact lookup_updList_ne m.alive k k' v h

theorem lookup_remList_self (l : List (K × V)) (k : K)
    (hnd : (l.map Prod.fst).Nodup) :
    lookupList (remList k l) k = none := by
  induction l with
  | nil => rfl
  | cons hd tl ih =>
    obtain ⟨k₀, v₀⟩ := hd
    simp only [List.map_cons, List.nodup_cons] at hnd
    by_cases h : k₀ = k
    · subst h
      simp only [remList, if_pos rfl]
      exact lookup_not_mem tl k₀ hnd.1
    · simp only [remList, if_neg h, lookupList, if_neg h]
      exact ih hnd.2

theorem lookup_remList_ne (l : List (K × V)) (k k' : K) (h : k' ≠ k) :
    lookupList (remList k l) k' = lookupList l k' := by
  induction l with
  | nil => rfl
  | cons hd tl ih =>
    obtain ⟨k₀, v₀⟩ := hd
    by_cases h₀ : k₀ = k
    · subst h₀
      simp [remList, lookupList, Ne.symm h]
    · simp [remList, lookupList, h₀, ih]

theorem get_delete_self (m : JsMap K V) (k : K) (h : WF m) :
    (m.delete k).2.get k = none := by
  show lookupList (m.delete k).2.alive k = none
  rw [alive_delete]
  exact lookup_remList_self m.alive k h

theorem get_delete_ne (m : JsMap K V) (k k' : K) (h : k' ≠ k) :
    (m.delete k).2.get k' = m.get k' := by
  show lookupList (m.delete k).2.alive k' = lookupList m.alive k'
  rw [alive_delete]
  exact lookup_remList_ne m.alive k k' h

theorem keys_updList (l : List (K × V)) (k : K) (v : V) :
    (updList k v l).map Prod.fst =
      if k ∈ l.map Prod.fst then l.map Prod.fst else l.map Prod.fst ++ [k] := by
  induction l with
  | nil => simp [updList]
  | cons hd tl ih =>
    obtain ⟨k₀, v₀⟩ := hd
    by_cases h₀ : k₀ = k
    · subst h₀
      simp [updList]
    · have hne : ¬k = k₀ := fun hh => h₀ hh.symm
      by_cases hm : k ∈ tl.map Prod.fst <;>
        simp [updList, h₀, ih, hm, hne]

theorem nodup_updList (l : List (K × V)) (k : K) (v : V)
    (h : (l.map Prod.fst).Nodup) : ((updList k v l).map Prod.fst).Nodup := by
  rw [keys_updList]
  by_cases hm : k ∈ l.map Prod.fst
  · simpa [hm] using h
  · simp [hm, List.nodup_append, h]

theorem remList_sublist (k : K) (l : List (K × V)) :
    List.Sublist (remList k l) l := by
  induction l with
  | nil => simp [remList]
  | cons hd tl ih =>
    obtain ⟨k₀, v₀⟩ := hd
    by_cases h₀ : k₀ = k
    · simp only [remList, if_pos h₀]
      exact List.sublist_cons_self (k₀, v₀) tl
    · simp only [remList, if_neg h₀]
      exact List.Sublist.cons₂ _ ih

theorem nodup_remList (l : List (K × V)) (k : K)
    (h : (l.map Prod.fst).Nodup) : ((remList k l).map Prod.fst).Nodup :=
  List.Nodup.sublist (List.Sublist.map Prod.fst (remList_sublist k l)) h

theorem wf_set (m : JsMap K V) (k : K) (v : V) (h : WF m) : WF (m.set k v) := by
  unfold WF
  rw [alive_set]
  exact nodup_updList m.alive k v h

theorem wf_delete (m : JsMap K V) (k : K) (h : WF m) : WF (m.delete k).2 := by
  unfold WF
  rw [alive_delete]
  exact nodup_remList m.alive k h

theorem wf_clear (m : JsMap K V) : WF (clear m) := by
  unfold WF
  rw [alive_clear]
  simp

theorem wf_empty : WF (empty : JsMap K V) := by
  simp [WF, empty, alive]

theorem lookup_eq_of_mem (l : List (K × V)) (k : K) (v : V)
    (hnd : (l.map Prod.fst).Nodup) (hm : (k, v) ∈ l) :
    lookupList l k = some v := by
  induction l with
  | nil => cases hm
  | cons hd tl ih =>
    obtain ⟨k₀, v₀⟩ := hd
    simp only [List.map_cons, List.nodup_cons] at hnd
    rcases List.mem_cons.1 hm with hm' | hm'
    · cases hm'
      simp [lookupList]
    · by_cases h : k₀ = k
      · subst h
        exact absurd (List.mem_map_of_mem Prod.fst hm') hnd.1
      · simp only [lookupList, if_neg h]
        exact ih hnd.2 hm'

theorem mem_of_lookup_eq (l : List (K × V)) (k : K) (v : V)
    (h : lookupList l k = some v) : (k, v) ∈ l := by
  induction l with
  | nil => simp [lookupList] at h
  | cons hd tl ih =>
    obtain ⟨k₀, v₀⟩ := hd
    by_cases h₀ : k₀ = k
    · subst h₀
      rw [lookupList, if_pos rfl] at h
      cases h
      exact List.mem_cons_self _ _
    · rw [lookupList, if_neg h₀] at h
      exact List.mem_cons_of_mem _ (ih h)

end JsMap

/-!
Embedding of `ExpireCache` (the lazy-expiring cache).  State carries the
two backing maps, the configured default expiry offset, the current clock
(`Date.now()` in milliseconds, modelled as a `Nat`), and the list of
notifications emitted so far.  JavaScript payload truthiness — the
`if (value)` checks in `cleanExpired` and `delete` — is abstracted as a
caller-supplied predicate `tr` on payloads, and number truthiness
(`0`/`undefined` falsy) is inlined where the source tests numbers.
-/

namespace ExpireCache

/-- The notifications an `ExpireCache` emits (log lines are not events). -/
inductive Ev (K P : Type) where
  | set (key : K) (data : P) (expiresAt : Option Nat)
  | get (key : K)
  | delete (key : K)
  | expires (key : K) (value : P)
  | clear (entries : List (K × P))
deriving DecidableEq

structure State (K P : Type) where
  cache : JsMap K P
  cacheTtl : JsMap K (Option Nat)
  defaultExpireMs : Option Nat
  now : Nat
  events : List (Ev K P)
deriving DecidableEq

variable {K P : Type} [DecidableEq K] [DecidableEq P]

/-- `getExpireDate`: explicit expiry wins; otherwise the default offset is
applied only when it is truthy (set and nonzero). -/
def getExpireDate (s : State K P) (expires : Option Nat) : Option Nat :=
  let defaultExpireDate : Option Nat :=
    match s.defaultExpireMs with
    | some d => if d ≠ 0 then some (s.now + d) else none
    | none => none
  expires.orElse (fun _ => defaultExpireDate)

/-- `set(key, data, expires?)`. -/
def set (s : State K P) (k : K) (data : P) (expires : Option Nat) : State K P :=
  let expireTs := getExpireDate s expires
  { s with
    events := s.events ++ [Ev.set k data (getExpireDate s expires)]
    cache := s.cache.set k data
    cacheTtl := s.cacheTtl.set k expireTs }

/-- The sweep loop body of `cleanExpired`: walk the ttl entries (the live
iterator only ever deletes the entry it is visiting, so the walk sees
exactly the entries that were live when the sweep started), deleting
expired keys and collecting the removed entries. -/
def cleanPass (tr : P → Bool) (nowv : Nat) :
    List (K × Option Nat) → JsMap K P → JsMap K (Option Nat) → List (K × P) →
      JsMap K P × JsMap K (Option Nat) × List (K × P)
  | [], c, t, acc => (c, t, acc)
  | (k, e) :: rest, c, t, acc =>
    match e with
    | some ts =>
        if ts < nowv then
          match c.get k with
          | some pv =>
              if tr pv then
                cleanPass tr nowv rest (c.delete k).2 (t.delete k).2 (acc ++ [(k, pv)])
              else
                cleanPass tr nowv rest c (t.delete k).2 acc
          | none => cleanPass tr nowv rest c (t.delete k).2 acc
        else cleanPass tr nowv rest c t acc
    | none => cleanPass tr nowv rest c t acc

/-- `cleanExpired()`: sweep strictly-past entries, then notify each removed
entry as expired (the notification batch is emitted after the sweep). -/
def cleanExpired (tr : P → Bool) (s : State K P) : State K P :=
  let r := cleanPass tr s.now s.cacheTtl.alive s.cache s.cacheTtl []
  { s with
    cache := r.1
    cacheTtl := r.2.1
    events := s.events ++ r.2.2.map (fun kv => Ev.expires kv.1 kv.2) }

/-- `get(key)`: emit the `get` event, sweep, then read. -/
def get (tr : P → Bool) (s : State K P) (k : K) : State K P × Option P :=
  let s1 := { s with events := s.events ++ [Ev.get k] }
  let s2 := cleanExpired tr s1
  (s2, s2.cache.get k)

/-- `has(key)`: sweep, then test. -/
def has (tr : P → Bool) (s : State K P) (k : K) : State K P × Bool :=
  let s1 := cleanExpired tr s
  (s1, s1.cache.hasKey k)

/-- `expires(key)`: the recorded expiry is read before the sweep runs; a
zero timestamp is falsy and reported as `undefined`. -/
def expires (tr : P → Bool) (s : State K P) (k : K) : State K P × Option Nat :=
  let res := (s.cacheTtl.get k).join
  let s1 := cleanExpired tr s
  (s1, match res with
       | some ts => if ts ≠ 0 then some ts else none
       | none => none)

/-- `delete(key)`: when the stored payload is truthy, notify it as an
expired entry and then as deleted; remove unconditionally. -/
def delete (tr : P → Bool) (s : State K P) (k : K) : State K P × Bool :=
  let s1 :=
    match s.cache.get k with
    | some v =>
        if tr v then { s with events := s.events ++ [Ev.expires k v, Ev.delete k] }
        else s
    | none => s
  let s2 := { s1 with cacheTtl := (s1.cacheTtl.delete k).2 }
  let r := s2.cache.delete k
  ({ s2 with cache := r.2 }, r.1)

/-- `clear()`: notify every entry as expired, emit `clear` with a copy of
the entries, then drop everything. -/
def clear (s : State K P) : State K P :=
  let copy := s.cache.alive
  { s with
    events := s.events ++ copy.map (fun kv => Ev.expires kv.1 kv.2) ++ [Ev.clear copy]
    cache := s.cache.clear
    cacheTtl := s.cacheTtl.clear }

/-- `size()`: live unswept count. -/
def size (s : State K P) : Nat :=
  s.cache.size

/-- `entries()`: sweep, then snapshot. -/
def entries (tr : P → Bool) (s : State K P) : State K P × List (K × P) :=
  let s1 := cleanExpired tr s
  (s1, s1.cache.alive)

/-- `keys()`: sweep, then snapshot. -/
def keys (tr : P → Bool) (s : State K P) : State K P × List K :=
  let s1 := cleanExpired tr s
  (s1, s1.cache.keysList)

/-- `values()`: sweep, then snapshot. -/
def values (tr : P → Bool) (s : State K P) : State K P × List P :=
  let s1 := cleanExpired tr s
  (s1, s1.cache.alive.map Prod.snd)

/-- `setExpireMs(expireMs)`. -/
def setExpireMs (s : State K P) (e : Option Nat) : State K P :=
  { s with defaultExpireMs := e }

/-- A fresh cache as built by the constructor. -/
def initial (d : Option Nat) : State K P :=
  { cache := JsMap.empty, cacheTtl := JsMap.empty, defaultExpireMs := d,
    now := 0, events := [] }

/-- Both backing maps are well-formed. -/
def MapsWF (s : State K P) : Prop :=
  s.cache.WF ∧ s.cacheTtl.WF

instance (s : State K P) : Decidable (MapsWF s) := by
  unfold MapsWF; infer_instance

end ExpireCache

namespace ExpireCache

variable {K P : Type} [DecidableEq K] [DecidableEq P]

/-- JavaScript truthiness of an optional payload (`undefined` is falsy). -/
def truthyOpt (tr : P → Bool) : Option P → Bool
  | some v => tr v
  | none => false

/-- Whether a recorded ttl value is strictly past `nowv` (the sweep
condition `expire !== undefined && expire < now`). -/
def sweepVerdict (nowv : Nat) : Option (Option Nat) → Bool
  | some (some ts) => decide (ts < nowv)
  | _ => false

/-- The entries a sweep at time `nowv` collects and notifies as expired:
those with a strictly-past ttl and a truthy stored payload, in ttl order. -/
def collectExpired (tr : P → Bool) (nowv : Nat) (c : JsMap K P)
    (L : List (K × Option Nat)) : List (K × P) :=
  L.filterMap (fun p =>
    match p.2 with
    | some ts =>
        if ts < nowv then
          match c.get p.1 with
          | some pv => if tr pv then some (p.1, pv) else none
          | none => none
        else none
    | none => none)

theorem collectExpired_congr (tr : P → Bool) (nowv : Nat)
    (c c' : JsMap K P) (L : List (K × Option Nat))
    (h : ∀ p ∈ L, c'.get p.1 = c.get p.1) :
    collectExpired tr nowv c' L = collectExpired tr nowv c L := by
  unfold collectExpired
  apply List.filterMap_congr
  intro p hp
  rw [h p hp]

theorem cleanPass_spec (tr : P → Bool) (nowv : Nat) :
    ∀ (L : List (K × Option Nat)) (c : JsMap K P) (t : JsMap K (Option Nat))
      (acc : List (K × P)),
      (L.map Prod.fst).Nodup →
      (∀ p ∈ L, t.get p.1 = some p.2) →
      c.WF → t.WF →
      (cleanPass tr nowv L c t acc).1.WF ∧
      (cleanPass tr nowv L c t acc).2.1.WF ∧
      (∀ k, (cleanPass tr nowv L c t acc).1.get k =
          (if sweepVerdict nowv (JsMap.lookupList L k) && truthyOpt tr (c.get k)
           then none else c.get k)) ∧
      (∀ k, (cleanPass tr nowv L c t acc).2.1.get k =
          (if sweepVerdict nowv (JsMap.lookupList L k) then none else t.get k)) ∧
      (cleanPass tr nowv L c t acc).2.2 = acc ++ collectExpired tr nowv c L := by
  intro L
  induction L with
  | nil =>
    intro c t acc _ _ hcwf htwf
    simp [cleanPass, sweepVerdict, collectExpired, JsMap.lookupList, hcwf, htwf]
  | cons hd rest ih =>
    intro c t acc hnd hag hcwf htwf
    obtain ⟨k₀, e₀⟩ := hd
    simp only [List.map_cons, List.nodup_cons] at hnd
    have hagr : ∀ p ∈ rest, t.get p.1 = some p.2 :=
      fun p hp => hag p (List.mem_cons_of_mem _ hp)
    have hrest_ne : ∀ p ∈ rest, p.1 ≠ k₀ := by
      intro p hp hpk
      exact hnd.1 (hpk ▸ List.mem_map_of_mem Prod.fst hp)
    have hlrest : JsMap.lookupList rest k₀ = (none : Option (Option Nat)) :=
      JsMap.lookup_not_mem rest k₀ hnd.1
    cases e₀ with
    | none =>
      simp only [cleanPass]
      obtain ⟨w1, w2, hc, ht, hacc⟩ := ih c t acc hnd.2 hagr hcwf htwf
      refine ⟨w1, w2, ?_, ?_, ?_⟩
      · intro k
        by_cases hk : k = k₀
        · subst hk
          rw [hc k]
          simp [JsMap.lookupList, sweepVerdict, hlrest]
        · rw [hc k]
          have : ¬k₀ = k := fun hh => hk hh.symm
          simp [JsMap.lookupList, this]
      · intro k
        by_cases hk : k = k₀
        · subst hk
          rw [ht k]
          simp [JsMap.lookupList, sweepVerdict, hlrest]
        · rw [ht k]
          have : ¬k₀ = k := fun hh => hk hh.symm
          simp [JsMap.lookupList, this]
      · rw [hacc]
        simp [collectExpired]
    | some ts =>
      by_cases hts : ts < nowv
      · cases hc₀ : c.get k₀ with
        | none =>
          simp only [cleanPass, if_pos hts, hc₀]
          have hagr' : ∀ p ∈ rest, (t.delete k₀).2.get p.1 = some p.2 := by
            intro p hp
            rw [JsMap.get_delete_ne t k₀ p.1 (hrest_ne p hp)]
            exact hagr p hp
          obtain ⟨w1, w2, hc, ht, hacc⟩ :=
            ih c (t.delete k₀).2 acc hnd.2 hagr' hcwf (JsMap.wf_delete t k₀ htwf)
          refine ⟨w1, w2, ?_, ?_, ?_⟩
          · intro k
            by_cases hk : k = k₀
            · subst hk
              rw [hc k]
              simp [JsMap.lookupList, sweepVerdict, hlrest, hc₀, truthyOpt, hts]
            · rw [hc k]
              have : ¬k₀ = k := fun hh => hk hh.symm
              simp [JsMap.lookupList, this]
          · intro k
            by_cases hk : k = k₀
            · subst hk
              rw [ht k]
              rw [JsMap.get_delete_self t k htwf]
              simp [JsMap.lookupList, sweepVerdict, hlrest, hts]
            · rw [ht k]
              rw [JsMap.get_delete_ne t k₀ k hk]
              have : ¬k₀ = k := fun hh => hk hh.symm
              simp [JsMap.lookupList, this]
          · rw [hacc]
            simp [collectExpired, hts, hc₀]
        | some pv =>
          by_cases htr : tr pv
          · simp only [cleanPass, if_pos hts, hc₀, if_pos htr]
            have hagr' : ∀ p ∈ rest, (t.delete k₀).2.get p.1 = some p.2 := by
              intro p hp
              rw [JsMap.get_delete_ne t k₀ p.1 (hrest_ne p hp)]
              exact hagr p hp
            obtain ⟨w1, w2, hc, ht, hacc⟩ :=
              ih (c.delete k₀).2 (t.delete k₀).2 (acc ++ [(k₀, pv)]) hnd.2 hagr'
                (JsMap.wf_delete c k₀ hcwf) (JsMap.wf_delete t k₀ htwf)
            refine ⟨w1, w2, ?_, ?_, ?_⟩
            · intro k
              by_cases hk : k = k₀
              · subst hk
                rw [hc k]
                rw [JsMap.get_delete_self c k hcwf]
                simp [JsMap.lookupList, sweepVerdict, hlrest, hc₀, truthyOpt, hts, htr]
              · rw [hc k]
                rw [JsMap.get_delete_ne c k₀ k hk]
                have : ¬k₀ = k := fun hh => hk hh.symm
                simp [JsMap.lookupList, this]
            · intro k
              by_cases hk : k = k₀
              · subst hk
                rw [ht k]
                rw [JsMap.get_delete_self t k htwf]
                simp [JsMap.lookupList, sweepVerdict, hlrest, hts]
              · rw [ht k]
                rw [JsMap.get_delete_ne t k₀ k hk]
                have : ¬k₀ = k := fun hh => hk hh.symm
                simp [JsMap.lookupList, this]
            · rw [hacc]
              rw [collectExpired_congr tr nowv c (c.delete k₀).2 rest
                (fun p hp => JsMap.get_delete_ne c k₀ p.1 (hrest_ne p hp))]
              simp [collectExpired, hts, hc₀, htr]
          · simp only [cleanPass, if_pos hts, hc₀, if_neg htr]
            have hagr' : ∀ p ∈ rest, (t.delete k₀).2.get p.1 = some p.2 := by
              intro p hp
              rw [JsMap.get_delete_ne t k₀ p.1 (hrest_ne p hp)]
              exact hagr p hp
            obtain ⟨w1, w2, hc, ht, hacc⟩ :=
              ih c (t.delete k₀).2 acc hnd.2 hagr' hcwf (JsMap.wf_delete t k₀ htwf)
            refine ⟨w1, w2, ?_, ?_, ?_⟩
            · intro k
              by_cases hk : k = k₀
              · subst hk
                rw [hc k]
                simp [JsMap.lookupList, sweepVerdict, hlrest, hc₀, truthyOpt, hts, htr]
              · rw [hc k]
                have : ¬k₀ = k := fun hh => hk hh.symm
                simp [JsMap.lookupList, this]
            · intro k
              by_cases hk : k = k₀
              · subst hk
                rw [ht k]
                rw [JsMap.get_delete_self t k htwf]
                simp [JsMap.lookupList, sweepVerdict, hlrest, hts]
              · rw [ht k]
                rw [JsMap.get_delete_ne t k₀ k hk]
                have : ¬k₀ = k := fun hh => hk hh.symm
                simp [JsMap.lookupList, this]
            · rw [hacc]
              simp [collectExpired, hts, hc₀, htr]
      · simp only [cleanPass, if_neg hts]
        obtain ⟨w1, w2, hc, ht, hacc⟩ := ih c t acc hnd.2 hagr hcwf htwf
        refine ⟨w1, w2, ?_, ?_, ?_⟩
        · intro k
          by_cases hk : k = k₀
          · subst hk
            rw [hc k]
            simp [JsMap.lookupList, sweepVerdict, hlrest, hts]
          · rw [hc k]
            have : ¬k₀ = k := fun hh => hk hh.symm
            simp [JsMap.lookupList, this]
        · intro k
          by_cases hk : k = k₀
          · subst hk
            rw [ht k]
            simp [JsMap.lookupList, sweepVerdict, hlrest, hts]
          · rw [ht k]
            have : ¬k₀ = k := fun hh => hk hh.symm
            simp [JsMap.lookupList, this]
        · rw [hacc]
          simp [collectExpired, hts]

/-- Characterization of one `cleanExpired()` sweep: a key is removed from
the ttl map exactly when its recorded expiry is strictly past `now`, it is
removed from the value cache exactly when additionally its payload is
truthy, exactly the removed (truthy) entries are notified as expired, and
nothing else changes. -/
theorem cleanExpired_char (tr : P → Bool) (s : State K P) (h : MapsWF s) :
    MapsWF (cleanExpired tr s) ∧
    (∀ k, (cleanExpired tr s).cache.get k =
        (if sweepVerdict s.now (s.cacheTtl.get k) && truthyOpt tr (s.cache.get k)
         then none else s.cache.get k)) ∧
    (∀ k, (cleanExpired tr s).cacheTtl.get k =
        (if sweepVerdict s.now (s.cacheTtl.get k) then none else s.cacheTtl.get k)) ∧
    (cleanExpired tr s).events =
      s.events ++ (collectExpired tr s.now s.cache s.cacheTtl.alive).map
        (fun kv => Ev.expires kv.1 kv.2) ∧
    (cleanExpired tr s).now = s.now ∧
    (cleanExpired tr s).defaultExpireMs = s.defaultExpireMs := by
  have hag : ∀ p ∈ s.cacheTtl.alive, s.cacheTtl.get p.1 = some p.2 := by
    intro p hp
    exact JsMap.lookup_eq_of_mem s.cacheTtl.alive p.1 p.2 h.2 (by
      cases p; exact hp)
  obtain ⟨w1, w2, hc, ht, hacc⟩ :=
    cleanPass_spec tr s.now s.cacheTtl.alive s.cache s.cacheTtl [] h.2 hag h.1 h.2
  refine ⟨⟨w1, w2⟩, ?_, ?_, ?_, rfl, rfl⟩
  · intro k
    exact hc k
  · intro k
    exact ht k
  · show s.events ++ _ = _
    rw [hacc]
    simp

end ExpireCache

/-!
Embedding of `ExpireTimeoutCache` (the timer-expiring cache).  Scheduled
`setTimeout` callbacks are modelled by a `pending` list of
`(handle id, key, expiry timestamp)` triples plus a fresh-handle counter;
`clearTimeout(handle)` removes the handle's triple from `pending`, and a
timer firing is a step that consumes a triple from `pending` and runs
`handleExpiredCallback` (which simply calls `delete`).  Handle ids start
at 1 and Node timeout handles are objects, so a stored handle is always
truthy.  The `timeout` field of a `cacheTimeout` entry is mutated to
`undefined` in place by the source's `clearTimeout`, which the model
mirrors by overwriting the map entry.
-/

namespace ExpireTimeoutCache

/-- Notifications emitted by `ExpireTimeoutCache` (it never emits `set`). -/
inductive Ev (K P : Type) where
  | get (key : K)
  | delete (key : K)
  | expires (key : K) (value : P)
  | clear (entries : List (K × P))
deriving DecidableEq

structure State (K P : Type) where
  cache : JsMap K P
  cacheTimeout : JsMap K (Option Nat × Option Nat)
  pending : List (Nat × K × Nat)
  nextId : Nat
  defaultExpireMs : Option Nat
  now : Nat
  events : List (Ev K P)
deriving DecidableEq

variable {K P : Type} [DecidableEq K] [DecidableEq P]

/-- Private `clearTimeout(key)`: cancel the stored handle (if truthy) and
null the entry's `timeout` field in place. -/
def clearTimeoutKey (s : State K P) (k : K) : State K P :=
  match s.cacheTimeout.get k with
  | some (some id, exp) =>
      { s with
        pending := s.pending.filter (fun p => decide (p.1 ≠ id))
        cacheTimeout := s.cacheTimeout.set k (none, exp) }
  | _ => s

/-- `getExpireDate`: explicit expiry wins; the default offset applies only
when truthy (set and nonzero). -/
def getExpireDate (s : State K P) (expires : Option Nat) : Option Nat :=
  let defaultExpireDate : Option Nat :=
    match s.defaultExpireMs with
    | some d => if d ≠ 0 then some (s.now + d) else none
    | none => none
  expires.orElse (fun _ => defaultExpireDate)

/-- `handleTimeoutSetup`: schedule a firing when an expiry date exists and
return the `{timeout, expires}` record to store. -/
def handleTimeoutSetup (s : State K P) (k : K) (expiresDate : Option Nat) :
    State K P × Option Nat × Option Nat :=
  match expiresDate with
  | some ts =>
      ({ s with pending := s.pending ++ [(s.nextId, k, ts)], nextId := s.nextId + 1 },
       some s.nextId, some ts)
  | none => (s, none, none)

/-- `set(key, data, expires?)`: cancel the key's previous timer, arm the
new one (if any), store data and the timeout record. -/
def set (s : State K P) (k : K) (data : P) (expires : Option Nat) : State K P :=
  let s1 := clearTimeoutKey s k
  let r := handleTimeoutSetup s1 k (getExpireDate s1 expires)
  { r.1 with
    cache := r.1.cache.set k data
    cacheTimeout := r.1.cacheTimeout.set k r.2 }

/-- `get(key)`: no sweeping, just the event and the lookup. -/
def get (s : State K P) (k : K) : State K P × Option P :=
  ({ s with events := s.events ++ [Ev.get k] }, s.cache.get k)

/-- `has(key)`. -/
def has (s : State K P) (k : K) : Bool :=
  s.cache.hasKey k

/-- `expires(key)`: `cacheTimeout.get(key)?.expires`. -/
def expires (s : State K P) (k : K) : Option Nat :=
  match s.cacheTimeout.get k with
  | some kv => kv.2
  | none => none

/-- `delete(key)`: cancel the timer, notify (`delete` then `expires`) when
the stored payload is truthy, remove from the value cache only (the
`cacheTimeout` record survives with a nulled handle). -/
def delete (tr : P → Bool) (s : State K P) (k : K) : State K P × Bool :=
  let s1 := clearTimeoutKey s k
  let s2 :=
    match s1.cache.get k with
    | some v =>
        if tr v then { s1 with events := s1.events ++ [Ev.delete k, Ev.expires k v] }
        else s1
    | none => s1
  let r := s2.cache.delete k
  ({ s2 with cache := r.2 }, r.1)

/-- `clear()`: cancel every stored handle, notify all entries as expired,
emit `clear`, drop both maps. -/
def clear (s : State K P) : State K P :=
  let cancelled := s.cacheTimeout.alive.filterMap (fun kv => kv.2.1)
  let s1 := { s with pending := s.pending.filter (fun p => decide (p.1 ∉ cancelled)) }
  let copy := s1.cache.alive
  { s1 with
    events := s1.events ++ copy.map (fun kv => Ev.expires kv.1 kv.2) ++ [Ev.clear copy]
    cache := s1.cache.clear
    cacheTimeout := s1.cacheTimeout.clear }

/-- `size()`. -/
def size (s : State K P) : Nat :=
  s.cache.size

/-- `setExpireMs(expireMs)`. -/
def setExpireMs (s : State K P) (e : Option Nat) : State K P :=
  { s with defaultExpireMs := e }

/-- `handleExpiredCallback(key)` as run by a firing timer: the pending
triple is consumed, then the callback deletes the key. -/
def fire (tr : P → Bool) (s : State K P) (p : Nat × K × Nat) : State K P :=
  (delete tr { s with pending := s.pending.erase p } p.2.1).1

/-- A fresh cache as built by the constructor. -/
def initial (d : Option Nat) : State K P :=
  { cache := JsMap.empty, cacheTimeout := JsMap.empty, pending := [],
    nextId := 1, defaultExpireMs := d, now := 0, events := [] }

/-- Timer well-formedness: pending handles are distinct and fresh, every
pending triple's key currently stores exactly that handle, and every
stored handle is fresh.  This is the invariant behind "at most one live
timer per key". -/
def TimerWF (s : State K P) : Prop :=
  (s.pending.map (fun p => p.1)).Nodup ∧
  (∀ p ∈ s.pending, p.1 < s.nextId ∧
      ∃ exp, s.cacheTimeout.get p.2.1 = some (some p.1, exp)) ∧
  (∀ kv ∈ s.cacheTimeout.alive, ∀ id, kv.2.1 = some id → id < s.nextId) ∧
  s.cacheTimeout.WF

/-- Number of pending scheduled firings for a key. -/
def countPending (s : State K P) (k : K) : Nat :=
  (s.pending.filter (fun p => decide (p.2.1 = k))).length

/-- The reachable states: everything a client can produce through the
public surface, including timer firings. -/
inductive Reach (tr : P → Bool) : State K P → Prop where
  | init (d : Option Nat) : Reach tr (initial d)
  | set {s} (k : K) (v : P) (e : Option Nat) :
      Reach tr s → Reach tr (ExpireTimeoutCache.set s k v e)
  | get {s} (k : K) : Reach tr s → Reach tr (ExpireTimeoutCache.get s k).1
  | delete {s} (k : K) : Reach tr s → Reach tr (ExpireTimeoutCache.delete tr s k).1
  | clear {s} : Reach tr s → Reach tr (ExpireTimeoutCache.clear s)
  | setExpireMs {s} (e : Option Nat) :
      Reach tr s → Reach tr (ExpireTimeoutCache.setExpireMs s e)
  | tick {s} (n : Nat) : Reach tr s → Reach tr { s with now := s.now + n }
  | fire {s} (p : Nat × K × Nat) (hp : p ∈ s.pending) :
      Reach tr s → Reach tr (ExpireTimeoutCache.fire tr s p)

end ExpireTimeoutCache

namespace JsMap

theorem mem_updList {K V : Type} [DecidableEq K]
    (l : List (K × V)) (k : K) (v : V) (x : K × V)
    (hx : x ∈ updList k v l) : x = (k, v) ∨ x ∈ l := by
  induction l with
  | nil =>
    simp [updList] at hx
    exact Or.inl hx
  | cons hd tl ih =>
    obtain ⟨k₀, v₀⟩ := hd
    by_cases h : k₀ = k
    · subst h
      rcases List.mem_cons.1 (by simpa [updList] using hx) with h' | h'
      · exact Or.inl h'
      · exact Or.inr (List.mem_cons_of_mem _ h')
    · rcases List.mem_cons.1 (by simpa [updList, h] using hx) with h' | h'
      · exact Or.inr (h' ▸ List.mem_cons_self _ _)
      · rcases ih h' with h'' | h''
        · exact Or.inl h''
        · exact Or.inr (List.mem_cons_of_mem _ h'')

end JsMap

/-- A duplicate-free list whose elements are pairwise equal has at most
one element. -/
theorem length_le_one_of_nodup_allEq {α : Type} (l : List α) (hnd : l.Nodup)
    (heq : ∀ x ∈ l, ∀ y ∈ l, x = y) : l.length ≤ 1 := by
  match l with
  | [] => simp
  | [a] => simp
  | a :: b :: rest =>
    exfalso
    have hab : a = b := heq a (by simp) b (by simp)
    subst hab
    simp [List.nodup_cons] at hnd

namespace ExpireTimeoutCache

variable {K P : Type} [DecidableEq K] [DecidableEq P]

theorem countPending_le_one_etc (s : State K P) (h : TimerWF s) (k : K) :
    countPending s k ≤ 1 := by
  unfold countPending
  apply length_le_one_of_nodup_allEq
  · exact (List.Nodup.of_map _ h.1).filter _
  · intro x hx y hy
    have hx' := List.mem_filter.1 hx
    have hy' := List.mem_filter.1 hy
    have hxk : x.2.1 = k := by simpa using hx'.2
    have hyk : y.2.1 = k := by simpa using hy'.2
    obtain ⟨ex, hlx⟩ := (h.2.1 x hx'.1).2
    obtain ⟨ey, hly⟩ := (h.2.1 y hy'.1).2
    rw [hxk] at hlx
    rw [hyk] at hly
    rw [hlx] at hly
    have hid : x.1 = y.1 := by
      injection hly with hly'
      injection hly' with h1 _
      injection h1
    exact List.inj_on_of_nodup_map h.1 hx'.1 hy'.1 hid

theorem clearTimeoutKey_proj_etc (s : State K P) (k : K) :
    (clearTimeoutKey s k).cache = s.cache ∧
    (clearTimeoutKey s k).nextId = s.nextId ∧
    (clearTimeoutKey s k).now = s.now ∧
    (clearTimeoutKey s k).defaultExpireMs = s.defaultExpireMs ∧
    (clearTimeoutKey s k).events = s.events := by
  unfold clearTimeoutKey
  cases s.cacheTimeout.get k with
  | none => exact ⟨rfl, rfl, rfl, rfl, rfl⟩
  | some kv =>
    obtain ⟨topt, exp⟩ := kv
    cases topt with
    | none => exact ⟨rfl, rfl, rfl, rfl, rfl⟩
    | some id => exact ⟨rfl, rfl, rfl, rfl, rfl⟩

theorem clearTimeoutKey_spec_etc (s : State K P) (k : K) (h : TimerWF s) :
    TimerWF (clearTimeoutKey s k) ∧
    (∀ p ∈ (clearTimeoutKey s k).pending, p.2.1 ≠ k) := by
  obtain ⟨hnd, hlink, hids, hwf⟩ := h
  cases hget : s.cacheTimeout.get k with
  | none =>
    have heq : clearTimeoutKey s k = s := by
      unfold clearTimeoutKey
      rw [hget]
    rw [heq]
    refine ⟨⟨hnd, hlink, hids, hwf⟩, ?_⟩
    intro p hp hpk
    obtain ⟨exp, hl⟩ := (hlink p hp).2
    rw [hpk, hget] at hl
    cases hl
  | some kv =>
    obtain ⟨topt, exp⟩ := kv
    cases topt with
    | none =>
      have heq : clearTimeoutKey s k = s := by
        unfold clearTimeoutKey
        rw [hget]
      rw [heq]
      refine ⟨⟨hnd, hlink, hids, hwf⟩, ?_⟩
      intro p hp hpk
      obtain ⟨exp', hl⟩ := (hlink p hp).2
      rw [hpk, hget] at hl
      injection hl with hl'
      injection hl' with h1 _
      cases h1
    | some id =>
      have heq : clearTimeoutKey s k =
          { s with
            pending := s.pending.filter (fun p => decide (p.1 ≠ id))
            cacheTimeout := s.cacheTimeout.set k (none, exp) } := by
        unfold clearTimeoutKey
        rw [hget]
      rw [heq]
      have hnok : ∀ p ∈ s.pending.filter (fun p => decide (p.1 ≠ id)), p.2.1 ≠ k := by
        intro p hp hpk
        have hp' := List.mem_filter.1 hp
        have hpid : p.1 ≠ id := by simpa using hp'.2
        obtain ⟨exp', hl⟩ := (hlink p hp'.1).2
        rw [hpk, hget] at hl
        injection hl with hl'
        injection hl' with h1 _
        injection h1 with h2
        exact hpid h2.symm
      refine ⟨⟨?_, ?_, ?_, ?_⟩, hnok⟩
      · exact List.Nodup.sublist
          (List.Sublist.map _ (List.filter_sublist s.pending)) hnd
      · intro p hp
        have hp' := List.mem_filter.1 hp
        refine ⟨(hlink p hp'.1).1, ?_⟩
        obtain ⟨exp', hl⟩ := (hlink p hp'.1).2
        refine ⟨exp', ?_⟩
        rw [JsMap.get_set_ne s.cacheTimeout k p.2.1 _ (hnok p hp)]
        exact hl
      · intro kv hkv id₀ hid₀
        rw [JsMap.alive_set] at hkv
        rcases JsMap.mem_updList _ _ _ _ hkv with h' | h'
        · rw [h'] at hid₀
          cases hid₀
        · exact hids kv h' id₀ hid₀
      · exact JsMap.wf_set s.cacheTimeout k (none, exp) hwf

theorem timerWF_ext_etc (s₁ s₂ : State K P)
    (hp : s₁.pending = s₂.pending) (hm : s₁.cacheTimeout = s₂.cacheTimeout)
    (hn : s₁.nextId = s₂.nextId) (h : TimerWF s₂) : TimerWF s₁ := by
  unfold TimerWF at h ⊢
  rw [hp, hm, hn]
  exact h

theorem set_eq_none (s : State K P) (k : K) (data : P) (e : Option Nat)
    (hexp : getExpireDate (clearTimeoutKey s k) e = none) :
    set s k data e =
      { clearTimeoutKey s k with
        cache := (clearTimeoutKey s k).cache.set k data
        cacheTimeout := (clearTimeoutKey s k).cacheTimeout.set k (none, none) } := by
  simp only [set, handleTimeoutSetup, hexp]

theorem set_eq_some (s : State K P) (k : K) (data : P) (e : Option Nat)
    (ts : Nat) (hexp : getExpireDate (clearTimeoutKey s k) e = some ts) :
    set s k data e =
      { clearTimeoutKey s k with
        pending := (clearTimeoutKey s k).pending ++
          [((clearTimeoutKey s k).nextId, k, ts)]
        nextId := (clearTimeoutKey s k).nextId + 1
        cache := (clearTimeoutKey s k).cache.set k data
        cacheTimeout := (clearTimeoutKey s k).cacheTimeout.set k
          (some (clearTimeoutKey s k).nextId, some ts) } := by
  simp only [set, handleTimeoutSetup, hexp]

theorem set_spec (s : State K P) (k : K) (data : P) (e : Option Nat)
    (h : TimerWF s) :
    TimerWF (set s k data e) ∧
    countPending (set s k data e) k =
      (if (getExpireDate s e).isSome then 1 else 0) := by
  obtain ⟨hwf1, hnok⟩ := clearTimeoutKey_spec_etc s k h
  obtain ⟨hc, hn, hnow, hd, hev⟩ := clearTimeoutKey_proj_etc s k
  obtain ⟨hnd1, hlink1, hids1, hmwf1⟩ := hwf1
  have hged : getExpireDate (clearTimeoutKey s k) e = getExpireDate s e := by
    unfold getExpireDate
    rw [hnow, hd]
  cases hexp : getExpireDate (clearTimeoutKey s k) e with
  | none =>
    rw [set_eq_none s k data e hexp]
    rw [hged] at hexp
    constructor
    · unfold TimerWF
      refine ⟨hnd1, ?_, ?_, ?_⟩
      · intro p hp
        refine ⟨(hlink1 p hp).1, ?_⟩
        obtain ⟨exp', hl⟩ := (hlink1 p hp).2
        refine ⟨exp', ?_⟩
        show ((clearTimeoutKey s k).cacheTimeout.set k (none, none)).get p.2.1 = _
        rw [JsMap.get_set_ne _ k p.2.1 _ (hnok p hp)]
        exact hl
      · intro kv hkv id₀ hid₀
        rw [JsMap.alive_set] at hkv
        rcases JsMap.mem_updList _ _ _ _ hkv with h' | h'
        · rw [h'] at hid₀
          cases hid₀
        · exact hids1 kv h' id₀ hid₀
      · exact JsMap.wf_set _ k (none, none) hmwf1
    · rw [hexp]
      simp only [countPending, Option.isSome_none, Bool.false_eq_true, if_false]
      rw [List.filter_eq_nil_iff.2 (by
        intro p hp
        simpa using hnok p hp)]
      simp
  | some ts =>
    rw [set_eq_some s k data e ts hexp]
    rw [hged] at hexp
    constructor
    · unfold TimerWF
      refine ⟨?_, ?_, ?_, ?_⟩
      · show ((((clearTimeoutKey s k).pending ++ _).map _)).Nodup
        simp only [List.map_append, List.map_cons, List.map_nil]
        rw [List.nodup_append]
        refine ⟨hnd1, by simp, ?_⟩
        intro a ha hb
        simp only [List.mem_singleton] at hb
        subst hb
        rcases List.mem_map.1 ha with ⟨p, hp, hpa⟩
        exact Nat.ne_of_lt (hlink1 p hp).1 hpa
      · intro p hp
        rcases List.mem_append.1 hp with hp' | hp'
        · refine ⟨Nat.lt_succ_of_lt (hlink1 p hp').1, ?_⟩
          obtain ⟨exp', hl⟩ := (hlink1 p hp').2
          refine ⟨exp', ?_⟩
          show ((clearTimeoutKey s k).cacheTimeout.set k _).get p.2.1 = _
          rw [JsMap.get_set_ne _ k p.2.1 _ (hnok p hp')]
          exact hl
        · simp only [List.mem_singleton] at hp'
          subst hp'
          refine ⟨Nat.lt_succ_self _, some ts, ?_⟩
          exact JsMap.get_set_self _ k _
      · intro kv hkv id₀ hid₀
        rw [JsMap.alive_set] at hkv
        rcases JsMap.mem_updList _ _ _ _ hkv with h' | h'
        · rw [h'] at hid₀
          injection hid₀ with h''
          subst h''
          exact Nat.lt_succ_self _
        · exact Nat.lt_succ_of_lt (hids1 kv h' id₀ hid₀)
      · exact JsMap.wf_set _ k _ hmwf1
    · rw [hexp]
      simp only [countPending, Option.isSome_some, if_true]
      show ((((clearTimeoutKey s k).pending ++ _).filter _)).length = 1
      rw [List.filter_append]
      rw [List.filter_eq_nil_iff.2 (by
        intro p hp
        simpa using hnok p hp)]
      simp

theorem delete_proj (tr : P → Bool) (s : State K P) (k : K) :
    ((delete tr s k).1).pending = (clearTimeoutKey s k).pending ∧
    ((delete tr s k).1).cacheTimeout = (clearTimeoutKey s k).cacheTimeout ∧
    ((delete tr s k).1).nextId = (clearTimeoutKey s k).nextId ∧
    ((delete tr s k).1).now = (clearTimeoutKey s k).now ∧
    ((delete tr s k).1).defaultExpireMs = (clearTimeoutKey s k).defaultExpireMs := by
  simp only [delete]
  cases (clearTimeoutKey s k).cache.get k with
  | none => exact ⟨rfl, rfl, rfl, rfl, rfl⟩
  | some v =>
    by_cases htr : tr v <;> simp [htr]

theorem delete_timerWF_etc (tr : P → Bool) (s : State K P) (k : K)
    (h : TimerWF s) : TimerWF (delete tr s k).1 := by
  obtain ⟨hwf1, _⟩ := clearTimeoutKey_spec_etc s k h
  obtain ⟨hp, hm, hn, _, _⟩ := delete_proj tr s k
  exact timerWF_ext_etc _ _ hp hm hn hwf1

theorem erase_timerWF_etc (s : State K P) (p : Nat × K × Nat) (h : TimerWF s) :
    TimerWF { s with pending := s.pending.erase p } := by
  obtain ⟨hnd, hlink, hids, hwf⟩ := h
  refine ⟨?_, ?_, hids, hwf⟩
  · exact List.Nodup.sublist (List.Sublist.map _ (s.pending.erase_sublist p)) hnd
  · intro q hq
    exact hlink q (List.mem_of_mem_erase hq)

theorem clear_timerWF_etc (s : State K P) (h : TimerWF s) :
    TimerWF (clear s) := by
  obtain ⟨hnd, hlink, hids, hwf⟩ := h
  have hpend : s.pending.filter
      (fun p => decide (p.1 ∉ s.cacheTimeout.alive.filterMap (fun kv => kv.2.1))) = [] := by
    apply List.filter_eq_nil_iff.2
    intro p hp
    obtain ⟨exp, hl⟩ := (hlink p hp).2
    have hmem : (p.2.1, (some p.1, exp)) ∈ s.cacheTimeout.alive :=
      JsMap.mem_of_lookup_eq _ _ _ hl
    have hcanc : p.1 ∈ s.cacheTimeout.alive.filterMap (fun kv => kv.2.1) :=
      List.mem_filterMap.2 ⟨(p.2.1, (some p.1, exp)), hmem, rfl⟩
    simp [hcanc]
  refine ⟨?_, ?_, ?_, ?_⟩
  · show ((s.pending.filter _).map _).Nodup
    rw [hpend]
    simp
  · show ∀ p ∈ s.pending.filter _, _
    rw [hpend]
    intro p hp
    cases hp
  · intro kv hkv
    simp only [clear] at hkv
    rw [JsMap.alive_clear] at hkv
    cases hkv
  · exact JsMap.wf_clear _


theorem reach_timerWF (tr : P → Bool) (s : State K P) (h : Reach tr s) :
    TimerWF s := by
  induction h with
  | init d =>
    refine ⟨?_, ?_, ?_, ?_⟩ <;>
      simp [initial, JsMap.WF, JsMap.alive, JsMap.empty]
  | set k v e _ ih => exact (set_spec _ k v e ih).1
  | get k _ ih => exact ih
  | delete k _ ih => exact delete_timerWF_etc tr _ k ih
  | clear _ ih => exact clear_timerWF_etc _ ih
  | setExpireMs e _ ih => exact ih
  | tick n _ ih => exact ih
  | fire p hp _ ih => exact delete_timerWF_etc tr _ _ (erase_timerWF_etc _ p ih)

end ExpireTimeoutCache

/-!
Embedding of the abstract `TieredCache` engine.  The four strategy hooks
(`handleCacheEntry`, `handleTimeoutValue`, `handleTierDefaultTimeout`,
`handleTierTimeout`) are supplied as a `Hooks` record; fallible hooks
return `Except` (a JavaScript `throw` is the `error` case).
`handleTierTimeout` may re-enter the engine (the reference subclass calls
`handleSetValue` or deletes from the cache), so it is modelled as a state
transformer that additionally returns the next timeout or an error; the
state it returns carries the mutations it performed before throwing.
`handleCacheEntry` and `handleTimeoutValue` are pure value-level hooks, as
in the reference subclass.  `getInitialStatusData` is forced by its
TypeScript type to be the all-zero record, so the engine model uses the
all-zero function directly.  JavaScript truthiness of reprojected data —
the `if (value)` test in `get` — is the hook record's `truthy` field.
Timers are modelled exactly as in `ExpireTimeoutCache`: a `pending` list
of `(handle, key, deadline)` triples plus a fresh-handle counter, with
`deadline = now + timeout` at arming time.
-/

namespace TieredCache

structure TierEntry (Tier Data : Type) where
  tier : Tier
  data : Data
deriving DecidableEq

structure TieredStatus (Tier : Type) where
  size : Nat
  tiers : Tier → Nat

/-- The notifications a `TieredCache` emits. -/
inductive Ev (Key Tier : Type) where
  | set (keys : List Key)
  | delete (keys : List Key)
  | clear
  | update (st : TieredStatus Tier)

structure State (Key Tier Data E : Type) where
  cache : JsMap Key (TierEntry Tier Data)
  cacheTimeout : JsMap Key Nat
  pending : List (Nat × Key × Nat)
  nextId : Nat
  now : Nat
  statusData : TieredStatus Tier
  events : List (Ev Key Tier)
  loggedErrors : List E

structure Hooks (Key Tier Data E : Type) where
  truthy : Data → Bool
  handleCacheEntry : Key → Tier → Option (TierEntry Tier Data) → Except E (Option Data)
  handleTimeoutValue : Key → Tier → Data → Except E (Option Nat)
  handleTierDefaultTimeout : Tier → Option Nat
  handleTierTimeout : Key → State Key Tier Data E →
    State Key Tier Data E × Except E (Option Nat)

variable {Key Tier Data E : Type} [DecidableEq Key] [DecidableEq Tier]
  [DecidableEq Data]

/-- The prelude shared by `setTimeout` and `clearTimeoutKey`:
`const oldTimeout = this.cacheTimeout.get(key); if (oldTimeout)
clearTimeout(oldTimeout);` — cancel the scheduled firing held by the
key's stored handle, if any (stored handles are always truthy). -/
def cancelOld (s : State Key Tier Data E) (k : Key) : State Key Tier Data E :=
  match s.cacheTimeout.get k with
  | some oldId => { s with pending := s.pending.filter (fun p => decide (p.1 ≠ oldId)) }
  | none => s

/-- Private `setTimeout(key, timeout)`: clear the previously stored handle
(if any), then arm a fresh timer when `timeout !== undefined`.  When
`timeout` is `undefined` the stale handle stays in `cacheTimeout`. -/
def setTimeout (s : State Key Tier Data E) (k : Key) (timeout : Option Nat) :
    State Key Tier Data E :=
  let s1 := cancelOld s k
  match timeout with
  | some t =>
      { s1 with
        pending := s1.pending ++ [(s1.nextId, k, s1.now + t)]
        cacheTimeout := s1.cacheTimeout.set k s1.nextId
        nextId := s1.nextId + 1 }
  | none => s1

/-- Private `clearTimeoutKey(key)`: cancel the stored handle and drop the
`cacheTimeout` entry. -/
def clearTimeoutKey (s : State Key Tier Data E) (k : Key) : State Key Tier Data E :=
  let s1 := cancelOld s k
  { s1 with cacheTimeout := (s1.cacheTimeout.delete k).2 }

/-- Private `clearAllTimeouts()`. -/
def clearAllTimeouts (s : State Key Tier Data E) : State Key Tier Data E :=
  let cancelled := s.cacheTimeout.alive.map (fun kv => kv.2)
  { s with
    pending := s.pending.filter (fun p => decide (p.1 ∉ cancelled))
    cacheTimeout := s.cacheTimeout.clear }

/-- The `{size, tiers}` record `buildStatus(true)` computes: total size
plus a fold over the stored entries incrementing the entry's tier count,
starting from the all-zero record `getInitialStatusData()`. -/
def buildStatusData (c : JsMap Key (TierEntry Tier Data)) : TieredStatus Tier :=
  { size := c.size
    tiers := c.alive.foldl
      (fun acc kv => fun t => if t = kv.2.tier then acc t + 1 else acc t)
      (fun _ => 0) }

/-- `buildStatus(rebuild)`: recompute and cache the status when `rebuild`,
otherwise return the cached snapshot. -/
def buildStatus (s : State Key Tier Data E) (rebuild : Bool) :
    State Key Tier Data E × TieredStatus Tier :=
  if rebuild then
    let st := buildStatusData s.cache
    ({ s with statusData := st }, st)
  else (s, s.statusData)

/-- `status()`: the cached snapshot, no recomputation. -/
def status (s : State Key Tier Data E) : TieredStatus Tier :=
  (buildStatus s false).2

/-- Protected `handleSetValue`: store the entry, then arm the timer from
the explicit timeout, else from `handleTimeoutValue` (not invoked when an
explicit timeout is given — `??` short-circuits).  A hook throw leaves
the entry stored but no timer armed. -/
def handleSetValue (htv : Key → Tier → Data → Except E (Option Nat))
    (s : State Key Tier Data E)
    (k : Key) (tier : Tier) (data : Data) (timeout : Option Nat) :
    State Key Tier Data E × Except E Unit :=
  let s1 := { s with cache := s.cache.set k ⟨tier, data⟩ }
  match timeout with
  | some t => (setTimeout s1 k (some t), Except.ok ())
  | none =>
      match htv k tier data with
      | Except.ok tv => (setTimeout s1 k tv, Except.ok ())
      | Except.error err => (s1, Except.error err)

/-- Protected `handleDeleteValue`: cancel the timer, delete the entry. -/
def handleDeleteValue (s : State Key Tier Data E) (k : Key) :
    State Key Tier Data E × Bool :=
  let s1 := clearTimeoutKey s k
  let r := s1.cache.delete k
  ({ s1 with cache := r.2 }, r.1)

/-- `get(key, tier, timeout?)`: reproject the stored entry; when the
result is truthy, reset the key's timer from `timeout ?? DefaultTimeout`.
Hook errors propagate. -/
def get (H : Hooks Key Tier Data E) (s : State Key Tier Data E)
    (k : Key) (tier : Tier) (timeout : Option Nat) :
    State Key Tier Data E × Except E (Option Data) :=
  match H.handleCacheEntry k tier (s.cache.get k) with
  | Except.error err => (s, Except.error err)
  | Except.ok value =>
      match value with
      | some v =>
          if H.truthy v then
            (setTimeout s k (timeout.orElse (fun _ => H.handleTierDefaultTimeout tier)),
             Except.ok (some v))
          else (s, Except.ok (some v))
      | none => (s, Except.ok none)

/-- `set(key, tier, data, timeout?)`: store, then emit `set` and `update`
(with an eager rebuild).  A hook error propagates before any event. -/
def set (H : Hooks Key Tier Data E) (s : State Key Tier Data E)
    (k : Key) (tier : Tier) (data : Data) (timeout : Option Nat) :
    State Key Tier Data E × Except E Unit :=
  let r := handleSetValue H.handleTimeoutValue s k tier data timeout
  match r.2 with
  | Except.ok _ =>
      let s2 := { r.1 with events := r.1.events ++ [Ev.set [k]] }
      let rb := buildStatus s2 true
      ({ rb.1 with events := rb.1.events ++ [Ev.update rb.2] }, Except.ok ())
  | Except.error err => (r.1, Except.error err)

def setEntriesLoop (H : Hooks Key Tier Data E) (tier : Tier) (timeout : Option Nat) :
    State Key Tier Data E → List (Key × Data) → State Key Tier Data E × Except E Unit
  | s, [] => (s, Except.ok ())
  | s, (k, d) :: rest =>
      let r := handleSetValue H.handleTimeoutValue s k tier d timeout
      match r.2 with
      | Except.ok _ => setEntriesLoop H tier timeout r.1 rest
      | Except.error err => (r.1, Except.error err)

/-- `setEntries(tier, entries, timeout?)`: store every pair, then one
batched `set` event (with all keys) and one `update`. -/
def setEntries (H : Hooks Key Tier Data E) (s : State Key Tier Data E)
    (tier : Tier) (entries : List (Key × Data)) (timeout : Option Nat) :
    State Key Tier Data E × Except E Unit :=
  let r := setEntriesLoop H tier timeout s entries
  match r.2 with
  | Except.ok _ =>
      let s2 := { r.1 with events := r.1.events ++ [Ev.set (entries.map Prod.fst)] }
      let rb := buildStatus s2 true
      ({ rb.1 with events := rb.1.events ++ [Ev.update rb.2] }, Except.ok ())
  | Except.error err => (r.1, Except.error err)

/-- `getTier(key)`. -/
def getTier (s : State Key Tier Data E) (k : Key) : Option Tier :=
  (s.cache.get k).map TierEntry.tier

/-- `keys()`. -/
def keys (s : State Key Tier Data E) : List Key :=
  s.cache.keysList

/-- `has(key)`. -/
def has (s : State Key Tier Data E) (k : Key) : Bool :=
  s.cache.hasKey k

/-- `size()`. -/
def size (s : State Key Tier Data E) : Nat :=
  s.cache.size

/-- `clear()`: cancel all timers, drop all entries, emit `delete` (all
keys), `clear`, and `update` (eager rebuild). -/
def clear (s : State Key Tier Data E) : State Key Tier Data E :=
  let ks := s.cache.keysList
  let s1 := clearAllTimeouts s
  let s2 := { s1 with cache := s1.cache.clear }
  let s3 := { s2 with events := s2.events ++ [Ev.delete ks, Ev.clear] }
  let rb := buildStatus s3 true
  { rb.1 with events := rb.1.events ++ [Ev.update rb.2] }

/-- `delete(key)`: events are emitted only when an entry was removed. -/
def delete (s : State Key Tier Data E) (k : Key) :
    State Key Tier Data E × Bool :=
  let r := handleDeleteValue s k
  if r.2 then
    let s2 := { r.1 with events := r.1.events ++ [Ev.delete [k]] }
    let rb := buildStatus s2 true
    ({ rb.1 with events := rb.1.events ++ [Ev.update rb.2] }, true)
  else (r.1, false)

def deleteKeysLoop : State Key Tier Data E → List Key →
    State Key Tier Data E × List Key
  | s, [] => (s, [])
  | s, k :: rest =>
      let s1 := clearTimeoutKey s k
      let r := s1.cache.delete k
      let s2 := { s1 with cache := r.2 }
      let res := deleteKeysLoop s2 rest
      (res.1, (if r.1 then [k] else []) ++ res.2)

/-- `deleteKeys(keys)`: delete each key, then emit `delete` (with the
actually-removed keys, possibly the empty list) and `update`
unconditionally; returns the number of removed keys. -/
def deleteKeys (s : State Key Tier Data E) (ks : List Key) :
    State Key Tier Data E × Nat :=
  let r := deleteKeysLoop s ks
  let s2 := { r.1 with events := r.1.events ++ [Ev.delete r.2] }
  let rb := buildStatus s2 true
  ({ rb.1 with events := rb.1.events ++ [Ev.update rb.2] }, r.2.length)

/-- Private `runTimeout(key)` as run by a fired timer: the whole body is
wrapped in `try/catch`; a hook error is logged and nothing else happens
(no retry, no rearm by the engine, no propagation). -/
def runTimeout (H : Hooks Key Tier Data E) (k : Key)
    (s : State Key Tier Data E) : State Key Tier Data E :=
  let r := H.handleTierTimeout k s
  match r.2 with
  | Except.error err => { r.1 with loggedErrors := r.1.loggedErrors ++ [err] }
  | Except.ok none =>
      let s1 := clearTimeoutKey r.1 k
      let rb := buildStatus s1 true
      { rb.1 with events := rb.1.events ++ [Ev.update rb.2] }
  | Except.ok (some tv) =>
      let s1 := setTimeout r.1 k (some tv)
      let rb := buildStatus s1 true
      { rb.1 with events := rb.1.events ++ [Ev.update rb.2] }

/-- A timer firing: the scheduled triple is consumed, then `runTimeout`
runs for its key. -/
def fire (H : Hooks Key Tier Data E) (s : State Key Tier Data E)
    (p : Nat × Key × Nat) : State Key Tier Data E :=
  runTimeout H p.2.1 { s with pending := s.pending.erase p }

/-- One step of the `tierValues(tier)` iterator: a step of the live map
iterator, reprojected through `handleCacheEntry`.  Yields `some value`
(the value may itself be absent) or `none` for a finished iterator. -/
def tierValuesNext (H : Hooks Key Tier Data E) (tier : Tier)
    (s : State Key Tier Data E) (i : Nat) :
    Except E (Option (Option Data) × Nat) :=
  match s.cache.iterNext i with
  | none => Except.ok (none, i)
  | some ((k, entry), i2) =>
      match H.handleCacheEntry k tier (some entry) with
      | Except.ok v => Except.ok (some v, i2)
      | Except.error err => Except.error err

/-- One step of the `tierEntries(tier)` iterator. -/
def tierEntriesNext (H : Hooks Key Tier Data E) (tier : Tier)
    (s : State Key Tier Data E) (i : Nat) :
    Except E (Option (Key × Option Data) × Nat) :=
  match s.cache.iterNext i with
  | none => Except.ok (none, i)
  | some ((k, entry), i2) =>
      match H.handleCacheEntry k tier (some entry) with
      | Except.ok v => Except.ok (some (k, v), i2)
      | Except.error err => Except.error err

/-- Exhausting the `tierValues` iterator with no interleaved mutation:
repeated `tierValuesNext` against the same state. -/
def runIterValues (H : Hooks Key Tier Data E) (tier : Tier)
    (s : State Key Tier Data E) : Nat → Nat → Except E (List (Option Data))
  | _, 0 => Except.ok []
  | i, fuel + 1 =>
      match tierValuesNext H tier s i with
      | Except.error err => Except.error err
      | Except.ok (none, _) => Except.ok []
      | Except.ok (some v, i2) =>
          match runIterValues H tier s i2 fuel with
          | Except.error err => Except.error err
          | Except.ok vs => Except.ok (v :: vs)

/-- Exhausting the `tierEntries` iterator with no interleaved mutation. -/
def runIterEntries (H : Hooks Key Tier Data E) (tier : Tier)
    (s : State Key Tier Data E) : Nat → Nat → Except E (List (Key × Option Data))
  | _, 0 => Except.ok []
  | i, fuel + 1 =>
      match tierEntriesNext H tier s i with
      | Except.error err => Except.error err
      | Except.ok (none, _) => Except.ok []
      | Except.ok (some v, i2) =>
          match runIterEntries H tier s i2 fuel with
          | Except.error err => Except.error err
          | Except.ok vs => Except.ok (v :: vs)

/-- A fresh engine as built by the constructor: empty maps and the
all-zero status snapshot. -/
def initial : State Key Tier Data E :=
  { cache := JsMap.empty, cacheTimeout := JsMap.empty, pending := [],
    nextId := 1, now := 0,
    statusData := { size := 0, tiers := fun _ => 0 },
    events := [], loggedErrors := [] }

end TieredCache

namespace JsMap

theorem remList_of_lookup_none {K V : Type} [DecidableEq K]
    (l : List (K × V)) (k : K) (h : lookupList l k = none) : remList k l = l := by
  induction l with
  | nil => rfl
  | cons hd tl ih =>
    obtain ⟨k₀, v₀⟩ := hd
    by_cases h₀ : k₀ = k
    · subst h₀
      simp [lookupList] at h
    · simp only [lookupList, if_neg h₀] at h
      simp [remList, h₀, ih h]

end JsMap

namespace TieredCache

variable {Key Tier Data E : Type} [DecidableEq Key] [DecidableEq Tier]
  [DecidableEq Data]

/-- Number of stored entries currently tagged with tier `t`. -/
def countTier (c : JsMap Key (TierEntry Tier Data)) (t : Tier) : Nat :=
  (c.alive.filter (fun kv => decide (kv.2.tier = t))).length

theorem foldl_tiers (t : Tier) :
    ∀ (l : List (Key × TierEntry Tier Data)) (acc : Tier → Nat),
      (l.foldl (fun acc kv => fun t' => if t' = kv.2.tier then acc t' + 1 else acc t') acc) t
        = acc t + (l.filter (fun kv => decide (kv.2.tier = t))).length := by
  intro l
  induction l with
  | nil => intro acc; simp
  | cons hd tl ih =>
    intro acc
    simp only [List.foldl_cons]
    rw [ih]
    by_cases h : hd.2.tier = t
    · rw [if_pos h.symm]
      have hd' : decide (hd.2.tier = t) = true := decide_eq_true h
      simp only [List.filter_cons, hd', if_true, List.length_cons]
      omega
    · rw [if_neg (fun hh => h hh.symm)]
      have hd' : decide (hd.2.tier = t) = false := decide_eq_false h
      simp only [List.filter_cons, hd', Bool.false_eq_true, if_false]

theorem buildStatusData_spec (c : JsMap Key (TierEntry Tier Data)) :
    (buildStatusData c).size = c.size ∧
    ∀ t, (buildStatusData c).tiers t = countTier c t := by
  refine ⟨rfl, ?_⟩
  intro t
  show (c.alive.foldl
    (fun acc kv => fun t' => if t' = kv.2.tier then acc t' + 1 else acc t')
    (fun _ => 0)) t = _
  rw [foldl_tiers t c.alive (fun _ => 0)]
  simp [countTier]

theorem sum_filter_tier [Fintype Tier] (l : List (Key × TierEntry Tier Data)) :
    (∑ t : Tier, (l.filter (fun kv => decide (kv.2.tier = t))).length) = l.length := by
  induction l with
  | nil => simp
  | cons hd tl ih =>
    have hsplit : ∀ t : Tier,
        ((hd :: tl).filter (fun kv => decide (kv.2.tier = t))).length
          = (if hd.2.tier = t then 1 else 0) +
            (tl.filter (fun kv => decide (kv.2.tier = t))).length := by
      intro t
      by_cases h : hd.2.tier = t
      · simp [List.filter_cons, h]
        omega
      · simp [List.filter_cons, h]
    calc (∑ t : Tier, ((hd :: tl).filter (fun kv => decide (kv.2.tier = t))).length)
        = ∑ t : Tier, ((if hd.2.tier = t then 1 else 0) +
            (tl.filter (fun kv => decide (kv.2.tier = t))).length) :=
          Finset.sum_congr rfl (fun t _ => hsplit t)
      _ = (∑ t : Tier, if hd.2.tier = t then 1 else 0) +
            ∑ t : Tier, (tl.filter (fun kv => decide (kv.2.tier = t))).length :=
          Finset.sum_add_distrib
      _ = 1 + tl.length := by
          rw [ih]
          congr 1
          simp [Finset.sum_ite_eq]
      _ = (hd :: tl).length := by simp [Nat.add_comm]

/-- The status-consistency invariant: the cached snapshot agrees with the
stored entries. -/
def SInv (s : State Key Tier Data E) : Prop :=
  s.statusData.size = s.cache.size ∧
  ∀ t, s.statusData.tiers t = countTier s.cache t

theorem sinv_of_build (s : State Key Tier Data E)
    (h : s.statusData = buildStatusData s.cache) : SInv s := by
  unfold SInv
  rw [h]
  exact buildStatusData_spec s.cache

/-- States reachable through the public operation surface (timer firings
excluded; every completed mutating operation rebuilds the snapshot). -/
inductive ReachPub (H : Hooks Key Tier Data E) : State Key Tier Data E → Prop where
  | init : ReachPub H initial
  | get {s} (k : Key) (tier : Tier) (timeout : Option Nat) :
      ReachPub H s → ReachPub H (get H s k tier timeout).1
  | set {s} (k : Key) (tier : Tier) (d : Data) (timeout : Option Nat) :
      ReachPub H s → (set H s k tier d timeout).2 = Except.ok () →
      ReachPub H (set H s k tier d timeout).1
  | setEntries {s} (tier : Tier) (entries : List (Key × Data)) (timeout : Option Nat) :
      ReachPub H s → (setEntries H s tier entries timeout).2 = Except.ok () →
      ReachPub H (setEntries H s tier entries timeout).1
  | delete {s} (k : Key) : ReachPub H s → ReachPub H (delete s k).1
  | deleteKeys {s} (ks : List Key) : ReachPub H s → ReachPub H (deleteKeys s ks).1
  | clear {s} : ReachPub H s → ReachPub H (clear s)
  | tick {s} (n : Nat) : ReachPub H s → ReachPub H { s with now := s.now + n }

theorem cancelOld_proj (s : State Key Tier Data E) (k : Key) :
    (cancelOld s k).cache = s.cache ∧
    (cancelOld s k).cacheTimeout = s.cacheTimeout ∧
    (cancelOld s k).nextId = s.nextId ∧
    (cancelOld s k).now = s.now ∧
    (cancelOld s k).statusData = s.statusData ∧
    (cancelOld s k).events = s.events ∧
    (cancelOld s k).loggedErrors = s.loggedErrors := by
  unfold cancelOld
  cases s.cacheTimeout.get k <;> exact ⟨rfl, rfl, rfl, rfl, rfl, rfl, rfl⟩

theorem setTimeout_proj (s : State Key Tier Data E) (k : Key) (timeout : Option Nat) :
    (setTimeout s k timeout).cache = s.cache ∧
    (setTimeout s k timeout).statusData = s.statusData ∧
    (setTimeout s k timeout).now = s.now ∧
    (setTimeout s k timeout).events = s.events ∧
    (setTimeout s k timeout).loggedErrors = s.loggedErrors := by
  obtain ⟨h1, _, _, h4, h5, h6, h7⟩ := cancelOld_proj s k
  simp only [setTimeout]
  cases timeout
  · exact ⟨h1, h5, h4, h6, h7⟩
  · exact ⟨h1, h5, h4, h6, h7⟩

theorem get_proj (H : Hooks Key Tier Data E) (s : State Key Tier Data E)
    (k : Key) (tier : Tier) (timeout : Option Nat) :
    (get H s k tier timeout).1.cache = s.cache ∧
    (get H s k tier timeout).1.statusData = s.statusData := by
  unfold get
  cases H.handleCacheEntry k tier (s.cache.get k) with
  | error err => exact ⟨rfl, rfl⟩
  | ok value =>
    cases value with
    | none => exact ⟨rfl, rfl⟩
    | some v =>
      by_cases htr : H.truthy v
      · simp only [if_pos htr]
        obtain ⟨h1, h2, _, _, _⟩ := setTimeout_proj s k
          (timeout.orElse (fun _ => H.handleTierDefaultTimeout tier))
        exact ⟨h1, h2⟩
      · simp [if_neg htr]

theorem set_sinv (H : Hooks Key Tier Data E) (s : State Key Tier Data E)
    (k : Key) (tier : Tier) (d : Data) (timeout : Option Nat)
    (hok : (set H s k tier d timeout).2 = Except.ok ()) :
    SInv (set H s k tier d timeout).1 := by
  cases hr : (handleSetValue H.handleTimeoutValue s k tier d timeout).2 with
  | error err =>
    exfalso
    simp only [set, hr] at hok
    exact Except.noConfusion hok
  | ok u =>
    apply sinv_of_build
    simp [set, hr, buildStatus]

theorem setEntries_sinv (H : Hooks Key Tier Data E) (s : State Key Tier Data E)
    (tier : Tier) (entries : List (Key × Data)) (timeout : Option Nat)
    (hok : (setEntries H s tier entries timeout).2 = Except.ok ()) :
    SInv (setEntries H s tier entries timeout).1 := by
  cases hr : (setEntriesLoop H tier timeout s entries).2 with
  | error err =>
    exfalso
    simp only [setEntries, hr] at hok
    exact Except.noConfusion hok
  | ok u =>
    apply sinv_of_build
    simp [setEntries, hr, buildStatus]

theorem clearTimeoutKey_proj (s : State Key Tier Data E) (k : Key) :
    (clearTimeoutKey s k).cache = s.cache ∧
    (clearTimeoutKey s k).statusData = s.statusData ∧
    (clearTimeoutKey s k).now = s.now ∧
    (clearTimeoutKey s k).events = s.events ∧
    (clearTimeoutKey s k).nextId = s.nextId := by
  obtain ⟨h1, _, h3, h4, h5, h6, _⟩ := cancelOld_proj s k
  exact ⟨h1, h5, h4, h6, h3⟩

theorem delete_sinv (s : State Key Tier Data E) (k : Key) (h : SInv s) :
    SInv (delete s k).1 := by
  by_cases hr : (handleDeleteValue s k).2 = true
  · apply sinv_of_build
    simp [delete, hr, buildStatus]
  · have hfalse : (handleDeleteValue s k).2 = false := by
      cases hb : (handleDeleteValue s k).2
      · rfl
      · exact absurd hb hr
    have heq : (delete s k).1 = (handleDeleteValue s k).1 := by
      simp [delete, hfalse]
    rw [heq]
    have hfst : ((clearTimeoutKey s k).cache.delete k).1 = false := hfalse
    rw [JsMap.delete_fst] at hfst
    have hget : (clearTimeoutKey s k).cache.get k = none := by
      cases hh : (clearTimeoutKey s k).cache.get k
      · rfl
      · rw [hh] at hfst
        simp at hfst
    obtain ⟨hc, hst, _, _, _⟩ := clearTimeoutKey_proj s k
    have halive : (handleDeleteValue s k).1.cache.alive = s.cache.alive := by
      show ((clearTimeoutKey s k).cache.delete k).2.alive = s.cache.alive
      rw [JsMap.alive_delete, JsMap.remList_of_lookup_none _ k hget, hc]
    have h1 : (handleDeleteValue s k).1.statusData = s.statusData := hst
    refine ⟨?_, ?_⟩
    · show (handleDeleteValue s k).1.statusData.size =
        (handleDeleteValue s k).1.cache.size
      rw [h1]
      show s.statusData.size = (handleDeleteValue s k).1.cache.alive.length
      rw [halive]
      exact h.1
    · intro t
      show (handleDeleteValue s k).1.statusData.tiers t =
        countTier (handleDeleteValue s k).1.cache t
      rw [h1]
      unfold countTier
      rw [halive]
      exact h.2 t

theorem deleteKeys_sinv (s : State Key Tier Data E) (ks : List Key) :
    SInv (deleteKeys s ks).1 := by
  apply sinv_of_build
  simp [deleteKeys, buildStatus]

theorem clear_sinv (s : State Key Tier Data E) : SInv (clear s) := by
  apply sinv_of_build
  simp [clear, buildStatus]

theorem reach_sinv (H : Hooks Key Tier Data E) (s : State Key Tier Data E)
    (h : ReachPub H s) : SInv s := by
  induction h with
  | init =>
    constructor
    · simp [initial, JsMap.size, JsMap.alive, JsMap.empty]
    · intro t
      simp [initial, countTier, JsMap.alive, JsMap.empty]
  | get k tier timeout _ ih =>
    obtain ⟨hc, hst⟩ := get_proj H _ k tier timeout
    unfold SInv at ih ⊢
    rw [hc, hst]
    exact ih
  | set k tier d timeout _ hok _ => exact set_sinv H _ k tier d timeout hok
  | setEntries tier entries timeout _ hok _ =>
    exact setEntries_sinv H _ tier entries timeout hok
  | delete k _ ih => exact delete_sinv _ k ih
  | deleteKeys ks _ _ => exact deleteKeys_sinv _ ks
  | clear _ _ => exact clear_sinv _
  | tick n _ ih => exact ih

end TieredCache

namespace TieredCache

variable {Key Tier Data E : Type} [DecidableEq Key] [DecidableEq Tier]
  [DecidableEq Data]

/-- Timer well-formedness for the engine: pending handles are distinct
and fresh, each pending triple's key stores exactly that handle, and all
stored handles are fresh. -/
def TimerWF (s : State Key Tier Data E) : Prop :=
  (s.pending.map (fun p => p.1)).Nodup ∧
  (∀ p ∈ s.pending, p.1 < s.nextId ∧ s.cacheTimeout.get p.2.1 = some p.1) ∧
  (∀ kv ∈ s.cacheTimeout.alive, kv.2 < s.nextId) ∧
  s.cacheTimeout.WF

/-- Number of pending scheduled firings for a key. -/
def countPending (s : State Key Tier Data E) (k : Key) : Nat :=
  (s.pending.filter (fun p => decide (p.2.1 = k))).length

theorem countPending_le_one (s : State Key Tier Data E) (h : TimerWF s) (k : Key) :
    countPending s k ≤ 1 := by
  unfold countPending
  apply length_le_one_of_nodup_allEq
  · exact (List.Nodup.of_map _ h.1).filter _
  · intro x hx y hy
    have hx' := List.mem_filter.1 hx
    have hy' := List.mem_filter.1 hy
    have hxk : x.2.1 = k := by simpa using hx'.2
    have hyk : y.2.1 = k := by simpa using hy'.2
    have hlx := (h.2.1 x hx'.1).2
    have hly := (h.2.1 y hy'.1).2
    rw [hxk] at hlx
    rw [hyk] at hly
    rw [hlx] at hly
    have hid : x.1 = y.1 := by
      injection hly
    exact List.inj_on_of_nodup_map h.1 hx'.1 hy'.1 hid

theorem timerWF_ext (s₁ s₂ : State Key Tier Data E)
    (hp : s₁.pending = s₂.pending) (hm : s₁.cacheTimeout = s₂.cacheTimeout)
    (hn : s₁.nextId = s₂.nextId) (h : TimerWF s₂) : TimerWF s₁ := by
  unfold TimerWF at h ⊢
  rw [hp, hm, hn]
  exact h

theorem cancelOld_spec (s : State Key Tier Data E) (k : Key) (h : TimerWF s) :
    TimerWF (cancelOld s k) ∧
    (∀ p ∈ (cancelOld s k).pending, p.2.1 ≠ k) ∧
    List.Sublist (cancelOld s k).pending s.pending := by
  obtain ⟨hnd, hlink, hids, hwf⟩ := h
  cases hget : s.cacheTimeout.get k with
  | none =>
    have heq : cancelOld s k = s := by
      unfold cancelOld
      rw [hget]
    rw [heq]
    refine ⟨⟨hnd, hlink, hids, hwf⟩, ?_, List.Sublist.refl _⟩
    intro p hp hpk
    have hl := (hlink p hp).2
    rw [hpk, hget] at hl
    cases hl
  | some oldId =>
    have heq : cancelOld s k =
        { s with pending := s.pending.filter (fun p => decide (p.1 ≠ oldId)) } := by
      unfold cancelOld
      rw [hget]
    rw [heq]
    have hnok : ∀ p ∈ s.pending.filter (fun p => decide (p.1 ≠ oldId)), p.2.1 ≠ k := by
      intro p hp hpk
      have hp' := List.mem_filter.1 hp
      have hpid : p.1 ≠ oldId := by simpa using hp'.2
      have hl := (hlink p hp'.1).2
      rw [hpk, hget] at hl
      injection hl with hl'
      exact hpid hl'.symm
    refine ⟨⟨?_, ?_, hids, hwf⟩, hnok, List.filter_sublist s.pending⟩
    · exact List.Nodup.sublist
        (List.Sublist.map _ (List.filter_sublist s.pending)) hnd
    · intro p hp
      exact hlink p (List.mem_filter.1 hp).1

theorem setTimeout_spec (s : State Key Tier Data E) (k : Key)
    (timeout : Option Nat) (h : TimerWF s) :
    TimerWF (setTimeout s k timeout) ∧
    (setTimeout s k timeout).pending.filter (fun p => decide (p.2.1 = k)) =
      (match timeout with
       | some t => [(s.nextId, k, s.now + t)]
       | none => []) := by
  obtain ⟨hwf1, hnok, hsub⟩ := cancelOld_spec s k h
  obtain ⟨hnd1, hlink1, hids1, hmwf1⟩ := hwf1
  obtain ⟨_, _, hn, hnow, _, _, _⟩ := cancelOld_proj s k
  have hfilt : (cancelOld s k).pending.filter (fun p => decide (p.2.1 = k)) = [] :=
    List.filter_eq_nil_iff.2 (fun p hp => by simpa using hnok p hp)
  cases timeout with
  | none =>
    simp only [setTimeout]
    exact ⟨⟨hnd1, hlink1, hids1, hmwf1⟩, hfilt⟩
  | some t =>
    simp only [setTimeout]
    constructor
    · refine ⟨?_, ?_, ?_, ?_⟩
      · show (((cancelOld s k).pending ++ _).map _).Nodup
        simp only [List.map_append, List.map_cons, List.map_nil]
        rw [List.nodup_append]
        refine ⟨hnd1, by simp, ?_⟩
        intro a ha hb
        simp only [List.mem_singleton] at hb
        subst hb
        rcases List.mem_map.1 ha with ⟨p, hp, hpa⟩
        exact Nat.ne_of_lt (hlink1 p hp).1 hpa
      · intro p hp
        rcases List.mem_append.1 hp with hp' | hp'
        · refine ⟨Nat.lt_succ_of_lt (hlink1 p hp').1, ?_⟩
          show ((cancelOld s k).cacheTimeout.set k _).get p.2.1 = _
          rw [JsMap.get_set_ne _ k p.2.1 _ (hnok p hp')]
          exact (hlink1 p hp').2
        · simp only [List.mem_singleton] at hp'
          subst hp'
          exact ⟨Nat.lt_succ_self _, JsMap.get_set_self _ k _⟩
      · intro kv hkv
        rw [JsMap.alive_set] at hkv
        rcases JsMap.mem_updList _ _ _ _ hkv with h' | h'
        · rw [h']
          exact Nat.lt_succ_self _
        · exact Nat.lt_succ_of_lt (hids1 kv h')
      · exact JsMap.wf_set _ k _ hmwf1
    · show (((cancelOld s k).pending ++ _).filter _) = _
      rw [List.filter_append, hfilt]
      simp [hn, hnow]

theorem clearTimeoutKey_spec (s : State Key Tier Data E) (k : Key)
    (h : TimerWF s) :
    TimerWF (clearTimeoutKey s k) ∧
    (∀ p ∈ (clearTimeoutKey s k).pending, p.2.1 ≠ k) := by
  obtain ⟨hwf1, hnok, _⟩ := cancelOld_spec s k h
  obtain ⟨hnd1, hlink1, hids1, hmwf1⟩ := hwf1
  refine ⟨⟨hnd1, ?_, ?_, ?_⟩, hnok⟩
  · intro p hp
    refine ⟨(hlink1 p hp).1, ?_⟩
    show ((cancelOld s k).cacheTimeout.delete k).2.get p.2.1 = _
    rw [JsMap.get_delete_ne _ k p.2.1 (hnok p hp)]
    exact (hlink1 p hp).2
  · intro kv hkv
    have hkv' : kv ∈ (cancelOld s k).cacheTimeout.alive := by
      have hsub : List.Sublist ((cancelOld s k).cacheTimeout.delete k).2.alive
          (cancelOld s k).cacheTimeout.alive := by
        rw [JsMap.alive_delete]
        exact JsMap.remList_sublist k _
      exact hsub.mem hkv
    exact hids1 kv hkv'
  · exact JsMap.wf_delete _ k hmwf1

theorem clearAllTimeouts_spec (s : State Key Tier Data E) (h : TimerWF s) :
    TimerWF (clearAllTimeouts s) ∧ (clearAllTimeouts s).pending = [] := by
  obtain ⟨hnd, hlink, hids, hwf⟩ := h
  have hpend : s.pending.filter
      (fun p => decide (p.1 ∉ s.cacheTimeout.alive.map (fun kv => kv.2))) = [] := by
    apply List.filter_eq_nil_iff.2
    intro p hp
    have hl := (hlink p hp).2
    have hmem : (p.2.1, p.1) ∈ s.cacheTimeout.alive :=
      JsMap.mem_of_lookup_eq _ _ _ hl
    have : p.1 ∈ s.cacheTimeout.alive.map (fun kv => kv.2) :=
      List.mem_map.2 ⟨(p.2.1, p.1), hmem, rfl⟩
    simp [this]
  constructor
  · refine ⟨?_, ?_, ?_, ?_⟩
    · show ((s.pending.filter _).map _).Nodup
      rw [hpend]
      simp
    · show ∀ p ∈ s.pending.filter _, _
      rw [hpend]
      intro p hp
      cases hp
    · intro kv hkv
      simp only [clearAllTimeouts] at hkv
      rw [JsMap.alive_clear] at hkv
      cases hkv
    · exact JsMap.wf_clear _
  · exact hpend

/-- The strategy hook invoked by a fired timer must respect the timer
discipline (the reference subclass does: it only re-enters the engine
through `handleSetValue` and `cache.delete`). -/
def HookTimerSafe (H : Hooks Key Tier Data E) : Prop :=
  ∀ k s, TimerWF s → TimerWF (H.handleTierTimeout k s).1

theorem handleSetValue_timerWF (htv : Key → Tier → Data → Except E (Option Nat))
    (s : State Key Tier Data E) (k : Key) (tier : Tier) (d : Data)
    (timeout : Option Nat) (h : TimerWF s) :
    TimerWF (handleSetValue htv s k tier d timeout).1 := by
  have hs1 : TimerWF { s with cache := s.cache.set k ⟨tier, d⟩ } :=
    timerWF_ext _ s rfl rfl rfl h
  simp only [handleSetValue]
  cases timeout with
  | some t => exact (setTimeout_spec _ k (some t) hs1).1
  | none =>
    cases htv k tier d with
    | ok tv => exact (setTimeout_spec _ k tv hs1).1
    | error err => exact hs1

theorem buildStatus_timer_proj (s : State Key Tier Data E) (b : Bool) :
    (buildStatus s b).1.pending = s.pending ∧
    (buildStatus s b).1.cacheTimeout = s.cacheTimeout ∧
    (buildStatus s b).1.nextId = s.nextId := by
  unfold buildStatus
  cases b <;> exact ⟨rfl, rfl, rfl⟩

theorem get_timerWF (H : Hooks Key Tier Data E) (s : State Key Tier Data E)
    (k : Key) (tier : Tier) (timeout : Option Nat) (h : TimerWF s) :
    TimerWF (get H s k tier timeout).1 := by
  unfold get
  cases H.handleCacheEntry k tier (s.cache.get k) with
  | error err => exact h
  | ok value =>
    cases value with
    | none => exact h
    | some v =>
      by_cases htr : H.truthy v
      · simp only [if_pos htr]
        exact (setTimeout_spec s k _ h).1
      · simp only [if_neg htr]
        exact h

theorem set_timerWF (H : Hooks Key Tier Data E) (s : State Key Tier Data E)
    (k : Key) (tier : Tier) (d : Data) (timeout : Option Nat) (h : TimerWF s) :
    TimerWF (set H s k tier d timeout).1 := by
  have hsv := handleSetValue_timerWF H.handleTimeoutValue s k tier d timeout h
  cases hr : (handleSetValue H.handleTimeoutValue s k tier d timeout).2 with
  | error err =>
    simp only [set, hr]
    exact hsv
  | ok u =>
    simp only [set, hr]
    exact timerWF_ext _ _ rfl rfl rfl hsv

theorem setEntriesLoop_timerWF (H : Hooks Key Tier Data E) (tier : Tier)
    (timeout : Option Nat) :
    ∀ (entries : List (Key × Data)) (s : State Key Tier Data E),
      TimerWF s → TimerWF (setEntriesLoop H tier timeout s entries).1 := by
  intro entries
  induction entries with
  | nil => intro s h; exact h
  | cons hd rest ih =>
    intro s h
    obtain ⟨k, d⟩ := hd
    have hsv := handleSetValue_timerWF H.handleTimeoutValue s k tier d timeout h
    simp only [setEntriesLoop]
    cases hr : (handleSetValue H.handleTimeoutValue s k tier d timeout).2 with
    | error err => exact hsv
    | ok u => exact ih _ hsv

theorem setEntries_timerWF (H : Hooks Key Tier Data E) (s : State Key Tier Data E)
    (tier : Tier) (entries : List (Key × Data)) (timeout : Option Nat)
    (h : TimerWF s) : TimerWF (setEntries H s tier entries timeout).1 := by
  have hloop := setEntriesLoop_timerWF H tier timeout entries s h
  cases hr : (setEntriesLoop H tier timeout s entries).2 with
  | error err =>
    simp only [setEntries, hr]
    exact hloop
  | ok u =>
    simp only [setEntries, hr]
    exact timerWF_ext _ _ rfl rfl rfl hloop

theorem handleDeleteValue_timerWF (s : State Key Tier Data E) (k : Key)
    (h : TimerWF s) : TimerWF (handleDeleteValue s k).1 :=
  timerWF_ext _ _ rfl rfl rfl (clearTimeoutKey_spec s k h).1

theorem delete_timerWF (s : State Key Tier Data E) (k : Key) (h : TimerWF s) :
    TimerWF (delete s k).1 := by
  have hdv := handleDeleteValue_timerWF s k h
  by_cases hr : (handleDeleteValue s k).2 = true
  · simp only [delete, hr, if_true]
    exact timerWF_ext _ _ rfl rfl rfl hdv
  · have hfalse : (handleDeleteValue s k).2 = false := by
      cases hb : (handleDeleteValue s k).2
      · rfl
      · exact absurd hb hr
    simp only [delete, hfalse, Bool.false_eq_true, if_false]
    exact hdv

theorem deleteKeysLoop_timerWF :
    ∀ (ks : List Key) (s : State Key Tier Data E),
      TimerWF s → TimerWF (deleteKeysLoop s ks).1 := by
  intro ks
  induction ks with
  | nil => intro s h; exact h
  | cons k rest ih =>
    intro s h
    simp only [deleteKeysLoop]
    apply ih
    exact timerWF_ext _ _ rfl rfl rfl (clearTimeoutKey_spec s k h).1

theorem deleteKeys_timerWF (s : State Key Tier Data E) (ks : List Key)
    (h : TimerWF s) : TimerWF (deleteKeys s ks).1 := by
  exact timerWF_ext _ _ rfl rfl rfl (deleteKeysLoop_timerWF ks s h)

theorem clear_timerWF (s : State Key Tier Data E) (h : TimerWF s) :
    TimerWF (clear s) := by
  exact timerWF_ext _ _ rfl rfl rfl (clearAllTimeouts_spec s h).1

theorem runTimeout_timerWF (H : Hooks Key Tier Data E) (k : Key)
    (s : State Key Tier Data E) (hsafe : HookTimerSafe H) (h : TimerWF s) :
    TimerWF (runTimeout H k s) := by
  have hhook := hsafe k s h
  cases hrv : (H.handleTierTimeout k s).2 with
  | error err =>
    simp only [runTimeout, hrv]
    exact timerWF_ext _ _ rfl rfl rfl hhook
  | ok tv =>
    cases tv with
    | none =>
      simp only [runTimeout, hrv]
      exact timerWF_ext _ _ rfl rfl rfl (clearTimeoutKey_spec _ k hhook).1
    | some t =>
      simp only [runTimeout, hrv]
      exact timerWF_ext _ _ rfl rfl rfl (setTimeout_spec _ k (some t) hhook).1

theorem erase_timerWF (s : State Key Tier Data E) (p : Nat × Key × Nat)
    (h : TimerWF s) : TimerWF { s with pending := s.pending.erase p } := by
  obtain ⟨hnd, hlink, hids, hwf⟩ := h
  refine ⟨?_, ?_, hids, hwf⟩
  · exact List.Nodup.sublist (List.Sublist.map _ (s.pending.erase_sublist p)) hnd
  · intro q hq
    exact hlink q (List.mem_of_mem_erase hq)

theorem fire_timerWF (H : Hooks Key Tier Data E) (s : State Key Tier Data E)
    (p : Nat × Key × Nat) (hsafe : HookTimerSafe H) (h : TimerWF s) :
    TimerWF (fire H s p) :=
  runTimeout_timerWF H p.2.1 _ hsafe (erase_timerWF s p h)

/-- All states reachable through the public surface plus timer firings. -/
inductive ReachT (H : Hooks Key Tier Data E) : State Key Tier Data E → Prop where
  | init : ReachT H initial
  | get {s} (k : Key) (tier : Tier) (timeout : Option Nat) :
      ReachT H s → ReachT H (get H s k tier timeout).1
  | set {s} (k : Key) (tier : Tier) (d : Data) (timeout : Option Nat) :
      ReachT H s → ReachT H (set H s k tier d timeout).1
  | setEntries {s} (tier : Tier) (entries : List (Key × Data)) (timeout : Option Nat) :
      ReachT H s → ReachT H (setEntries H s tier entries timeout).1
  | delete {s} (k : Key) : ReachT H s → ReachT H (delete s k).1
  | deleteKeys {s} (ks : List Key) : ReachT H s → ReachT H (deleteKeys s ks).1
  | clear {s} : ReachT H s → ReachT H (clear s)
  | tick {s} (n : Nat) : ReachT H s → ReachT H { s with now := s.now + n }
  | fire {s} (p : Nat × Key × Nat) (hp : p ∈ s.pending) :
      ReachT H s → ReachT H (fire H s p)

theorem reachT_timerWF (H : Hooks Key Tier Data E) (hsafe : HookTimerSafe H)
    (s : State Key Tier Data E) (h : ReachT H s) : TimerWF s := by
  induction h with
  | init =>
    refine ⟨?_, ?_, ?_, ?_⟩ <;>
      simp [initial, JsMap.WF, JsMap.alive, JsMap.empty]
  | get k tier timeout _ ih => exact get_timerWF H _ k tier timeout ih
  | set k tier d timeout _ ih => exact set_timerWF H _ k tier d timeout ih
  | setEntries tier entries timeout _ ih =>
    exact setEntries_timerWF H _ tier entries timeout ih
  | delete k _ ih => exact delete_timerWF _ k ih
  | deleteKeys ks _ ih => exact deleteKeys_timerWF _ ks ih
  | clear _ ih => exact clear_timerWF _ ih
  | tick n _ ih => exact ih
  | fire p hp _ ih => exact fire_timerWF H _ p hsafe ih

end TieredCache

namespace JsMap

theorem iterNext_go_spec {K V : Type} :
    ∀ (L : List (Option (K × V))) (j : Nat),
      (iterNext.go L j = none ∧ L.filterMap id = []) ∨
      (∃ e n, iterNext.go L j = some (e, j + n + 1) ∧
        L.filterMap id = e :: ((L.drop (n + 1)).filterMap id)) := by
  intro L
  induction L with
  | nil => intro j; exact Or.inl ⟨rfl, rfl⟩
  | cons hd rest ih =>
    intro j
    cases hd with
    | none =>
      rcases ih (j + 1) with ⟨hnone, hempty⟩ | ⟨e, n, hsome, hfm⟩
      · refine Or.inl ⟨?_, ?_⟩
        · simpa [iterNext.go] using hnone
        · simpa using hempty
      · refine Or.inr ⟨e, n + 1, ?_, ?_⟩
        · show iterNext.go rest (j + 1) = _
          rw [hsome]
          congr 2
          omega
        · simpa using hfm
    | some e₀ =>
      refine Or.inr ⟨e₀, 0, ?_, ?_⟩
      · rfl
      · simp

end JsMap

namespace TieredCache

variable {Key Tier Data E : Type} [DecidableEq Key] [DecidableEq Tier]
  [DecidableEq Data]

/-- Reprojecting a list of stored entries in order, stopping at the first
hook error: the reference behaviour of exhausting `tierValues` over a
fixed snapshot. -/
def reprojectAll (H : Hooks Key Tier Data E) (tier : Tier) :
    List (Key × TierEntry Tier Data) → Except E (List (Option Data))
  | [] => Except.ok []
  | (k, e) :: rest =>
      match H.handleCacheEntry k tier (some e) with
      | Except.error err => Except.error err
      | Except.ok v =>
          match reprojectAll H tier rest with
          | Except.error err => Except.error err
          | Except.ok vs => Except.ok (v :: vs)

/-- Same, keeping the keys (`tierEntries`). -/
def reprojectAllE (H : Hooks Key Tier Data E) (tier : Tier) :
    List (Key × TierEntry Tier Data) → Except E (List (Key × Option Data))
  | [] => Except.ok []
  | (k, e) :: rest =>
      match H.handleCacheEntry k tier (some e) with
      | Except.error err => Except.error err
      | Except.ok v =>
          match reprojectAllE H tier rest with
          | Except.error err => Except.error err
          | Except.ok vs => Except.ok ((k, v) :: vs)

theorem runIterValues_spec (H : Hooks Key Tier Data E) (tier : Tier)
    (s : State Key Tier Data E) :
    ∀ (fuel i : Nat), s.cache.slots.length - i ≤ fuel →
      runIterValues H tier s i fuel =
        reprojectAll H tier ((s.cache.slots.drop i).filterMap id) := by
  intro fuel
  induction fuel with
  | zero =>
    intro i hi
    have hlen : s.cache.slots.length ≤ i := by omega
    rw [List.drop_eq_nil_of_le hlen]
    simp [runIterValues, reprojectAll]
  | succ fuel ih =>
    intro i hi
    rcases JsMap.iterNext_go_spec (s.cache.slots.drop i) i with
      ⟨hnone, hempty⟩ | ⟨e, n, hsome, hfm⟩
    · show (match tierValuesNext H tier s i with
        | Except.error err => Except.error err
        | Except.ok (none, _) => Except.ok []
        | Except.ok (some v, i2) => _) = _
      simp only [tierValuesNext, JsMap.iterNext, hnone]
      rw [hempty]
      rfl
    · obtain ⟨k₀, e₀⟩ := e
      have hdrop : (s.cache.slots.drop i).drop (n + 1) = s.cache.slots.drop (i + n + 1) := by
        rw [List.drop_drop]
        congr 1
        try omega
      show (match tierValuesNext H tier s i with
        | Except.error err => Except.error err
        | Except.ok (none, _) => Except.ok []
        | Except.ok (some v, i2) =>
            match runIterValues H tier s i2 fuel with
            | Except.error err => Except.error err
            | Except.ok vs => Except.ok (v :: vs)) = _
      simp only [tierValuesNext, JsMap.iterNext, hsome]
      rw [hfm, hdrop]
      cases hce : H.handleCacheEntry k₀ tier (some e₀) with
      | error err => simp [reprojectAll, hce]
      | ok v =>
        simp only [reprojectAll, hce]
        rw [ih (i + n + 1) (by omega)]

theorem runIterEntries_spec (H : Hooks Key Tier Data E) (tier : Tier)
    (s : State Key Tier Data E) :
    ∀ (fuel i : Nat), s.cache.slots.length - i ≤ fuel →
      runIterEntries H tier s i fuel =
        reprojectAllE H tier ((s.cache.slots.drop i).filterMap id) := by
  intro fuel
  induction fuel with
  | zero =>
    intro i hi
    have hlen : s.cache.slots.length ≤ i := by omega
    rw [List.drop_eq_nil_of_le hlen]
    simp [runIterEntries, reprojectAllE]
  | succ fuel ih =>
    intro i hi
    rcases JsMap.iterNext_go_spec (s.cache.slots.drop i) i with
      ⟨hnone, hempty⟩ | ⟨e, n, hsome, hfm⟩
    · show (match tierEntriesNext H tier s i with
        | Except.error err => Except.error err
        | Except.ok (none, _) => Except.ok []
        | Except.ok (some v, i2) => _) = _
      simp only [tierEntriesNext, JsMap.iterNext, hnone]
      rw [hempty]
      rfl
    · obtain ⟨k₀, e₀⟩ := e
      have hdrop : (s.cache.slots.drop i).drop (n + 1) = s.cache.slots.drop (i + n + 1) := by
        rw [List.drop_drop]
        congr 1
        try omega
      show (match tierEntriesNext H tier s i with
        | Except.error err => Except.error err
        | Except.ok (none, _) => Except.ok []
        | Except.ok (some v, i2) =>
            match runIterEntries H tier s i2 fuel with
            | Except.error err => Except.error err
            | Except.ok vs => Except.ok (v :: vs)) = _
      simp only [tierEntriesNext, JsMap.iterNext, hsome]
      rw [hfm, hdrop]
      cases hce : H.handleCacheEntry k₀ tier (some e₀) with
      | error err => simp [reprojectAllE, hce]
      | ok v =>
        simp only [reprojectAllE, hce]
        rw [ih (i + n + 1) (by omega)]

end TieredCache

/-!
Embedding of the reference strategy subclass `DateTieredCache`
(`test/mockup/DateTieredCache.mts`): three tiers `model` (a valid
JavaScript `Date`, i.e. an integer millisecond timestamp), `object`
(`{$cdate: number}`, modelled by its integer field), and `stringValue`
(a JSON string).  A stored entry is a value of the discriminated union
`DateData`, whose constructor is the union's `tier` discriminant that
the subclass's `switch (cache.tier)` statements dispatch on.

`JSON.stringify({$cdate: n})` is modelled character-exactly
(`{"$cdate":` + decimal integer + `}`).  `JSON.parse` is modelled on the
fragment this strategy can encounter in its own round trips: it accepts
exactly the canonical texts produced by the stringifier (returning the
integer) and signals a syntax error on everything else.  Non-canonical
but well-formed JSON texts (extra whitespace, exponents, extra fields)
are outside the modelled fragment; no theorem below depends on them, and
the counterexample input "x" is a syntax error for `JSON.parse` as well.
-/

namespace DateTieredCache

inductive DateTier where
  | model
  | object
  | stringValue
deriving DecidableEq, Fintype

/-- A JSON/JavaScript value, as produced by `JSON.parse` and consumed by
the date conversions.  Numbers are carried as exact decimal rationals;
`num none` is `NaN`, which `JSON.parse` never produces but `getTime()` of
an Invalid Date does.  IEEE-754 rounding of decimal literals to binary
doubles (and the infinities) is not modelled: the two agree on every
integer below 2^53, which covers every number this program computes,
compares or serializes. -/
inductive Json where
  | null
  | bool (b : Bool)
  | num (q : Option Rat)
  | str (s : String)
  | arr (xs : List Json)
  | obj (fields : List (String × Json))

mutual

def jsonDecEq : (a b : Json) → Decidable (a = b)
  | Json.null, Json.null => .isTrue rfl
  | Json.null, Json.bool _ => .isFalse (fun h => Json.noConfusion h)
  | Json.null, Json.num _ => .isFalse (fun h => Json.noConfusion h)
  | Json.null, Json.str _ => .isFalse (fun h => Json.noConfusion h)
  | Json.null, Json.arr _ => .isFalse (fun h => Json.noConfusion h)
  | Json.null, Json.obj _ => .isFalse (fun h => Json.noConfusion h)
  | Json.bool _, Json.null => .isFalse (fun h => Json.noConfusion h)
  | Json.bool a, Json.bool b =>
      if h : a = b then .isTrue (by rw [h]) else .isFalse (fun hh => h (Json.bool.inj hh))
  | Json.bool _, Json.num _ => .isFalse (fun h => Json.noConfusion h)
  | Json.bool _, Json.str _ => .isFalse (fun h => Json.noConfusion h)
  | Json.bool _, Json.arr _ => .isFalse (fun h => Json.noConfusion h)
  | Json.bool _, Json.obj _ => .isFalse (fun h => Json.noConfusion h)
  | Json.num _, Json.null => .isFalse (fun h => Json.noConfusion h)
  | Json.num _, Json.bool _ => .isFalse (fun h => Json.noConfusion h)
  | Json.num a, Json.num b =>
      if h : a = b then .isTrue (by rw [h]) else .isFalse (fun hh => h (Json.num.inj hh))
  | Json.num _, Json.str _ => .isFalse (fun h => Json.noConfusion h)
  | Json.num _, Json.arr _ => .isFalse (fun h => Json.noConfusion h)
  | Json.num _, Json.obj _ => .isFalse (fun h => Json.noConfusion h)
  | Json.str _, Json.null => .isFalse (fun h => Json.noConfusion h)
  | Json.str _, Json.bool _ => .isFalse (fun h => Json.noConfusion h)
  | Json.str _, Json.num _ => .isFalse (fun h => Json.noConfusion h)
  | Json.str a, Json.str b =>
      if h : a = b then .isTrue (by rw [h]) else .isFalse (fun hh => h (Json.str.inj hh))
  | Json.str _, Json.arr _ => .isFalse (fun h => Json.noConfusion h)
  | Json.str _, Json.obj _ => .isFalse (fun h => Json.noConfusion h)
  | Json.arr _, Json.null => .isFalse (fun h => Json.noConfusion h)
  | Json.arr _, Json.bool _ => .isFalse (fun h => Json.noConfusion h)
  | Json.arr _, Json.num _ => .isFalse (fun h => Json.noConfusion h)
  | Json.arr _, Json.str _ => .isFalse (fun h => Json.noConfusion h)
  | Json.arr xs, Json.arr ys =>
      match jsonDecEqList xs ys with
      | .isTrue h => .isTrue (by rw [h])
      | .isFalse h => .isFalse (fun hh => h (Json.arr.inj hh))
  | Json.arr _, Json.obj _ => .isFalse (fun h => Json.noConfusion h)
  | Json.obj _, Json.null => .isFalse (fun h => Json.noConfusion h)
  | Json.obj _, Json.bool _ => .isFalse (fun h => Json.noConfusion h)
  | Json.obj _, Json.num _ => .isFalse (fun h => Json.noConfusion h)
  | Json.obj _, Json.str _ => .isFalse (fun h => Json.noConfusion h)
  | Json.obj _, Json.arr _ => .isFalse (fun h => Json.noConfusion h)
  | Json.obj xs, Json.obj ys =>
      match jsonDecEqFields xs ys with
      | .isTrue h => .isTrue (by rw [h])
      | .isFalse h => .isFalse (fun hh => h (Json.obj.inj hh))

def jsonDecEqList : (xs ys : List Json) → Decidable (xs = ys)
  | [], [] => .isTrue rfl
  | [], _ :: _ => .isFalse (fun h => List.noConfusion h)
  | _ :: _, [] => .isFalse (fun h => List.noConfusion h)
  | x :: xs, y :: ys =>
      match jsonDecEq x y with
      | .isFalse h => .isFalse (fun hh => h (List.cons.inj hh).1)
      | .isTrue h1 =>
          match jsonDecEqList xs ys with
          | .isTrue h2 => .isTrue (by rw [h1, h2])
          | .isFalse h2 => .isFalse (fun hh => h2 (List.cons.inj hh).2)

def jsonDecEqFields : (xs ys : List (String × Json)) → Decidable (xs = ys)
  | [], [] => .isTrue rfl
  | [], _ :: _ => .isFalse (fun h => List.noConfusion h)
  | _ :: _, [] => .isFalse (fun h => List.noConfusion h)
  | (s, v) :: xs, (t, w) :: ys =>
      if hs : s = t then
        match jsonDecEq v w with
        | .isFalse hv =>
            .isFalse (fun hh => hv (congrArg Prod.snd (List.cons.inj hh).1))
        | .isTrue hv =>
            match jsonDecEqFields xs ys with
            | .isTrue h2 => .isTrue (by rw [hs, hv, h2])
            | .isFalse h2 => .isFalse (fun hh => h2 (List.cons.inj hh).2)
      else .isFalse (fun hh => hs (congrArg Prod.fst (List.cons.inj hh).1))

end

instance : DecidableEq Json := jsonDecEq

/-- A stored union value: tier `model` holds a `Date` as its time value
(`none` being an Invalid Date), tier `object` holds the runtime value the
source types `\x7b$cdate: number\x7d` (which, flowing out of
`JSON.parse`, can at runtime be any JSON value), tier `stringValue` holds
a string. -/
inductive DateData where
  | model (t : Option Int)
  | object (v : Json)
  | stringValue (s : String)
deriving DecidableEq

def digitChar : Nat → Char
  | 0 => '0'
  | 1 => '1'
  | 2 => '2'
  | 3 => '3'
  | 4 => '4'
  | 5 => '5'
  | 6 => '6'
  | 7 => '7'
  | 8 => '8'
  | _ => '9'

def charDigit? (c : Char) : Option Nat :=
  if 48 ≤ c.toNat ∧ c.toNat ≤ 57 then some (c.toNat - 48) else none

/-- Decimal digits of `n`, least significant first. -/
def natDigitsRev (n : Nat) : List Char :=
  if h : n < 10 then [digitChar n]
  else digitChar (n % 10) :: natDigitsRev (n / 10)
decreasing_by
  simp_wf
  omega

/-- The characters JavaScript prints for an integer (decimal; numbers in
the `Date` range are far below the 1e21 exponent-notation threshold). -/
def intToJsChars : Int → List Char
  | Int.ofNat n => (natDigitsRev n).reverse
  | Int.negSucc m => '-' :: (natDigitsRev (m + 1)).reverse

def intToJsString (n : Int) : String := ⟨intToJsChars n⟩

def parseDigitsAux : List Char → Nat → Option Nat
  | [], acc => some acc
  | c :: cs, acc =>
      match charDigit? c with
      | some d => parseDigitsAux cs (acc * 10 + d)
      | none => none

def parseNatChars (cs : List Char) : Option Nat :=
  if cs = [] then none else parseDigitsAux cs 0

def cdatePrefix : List Char := "\x7b\"$cdate\":".data

/-- `JSON.stringify({$cdate: n})`. -/
def jsonStringifyCdateChars (n : Int) : List Char :=
  cdatePrefix ++ intToJsChars n ++ ['\x7d']

def jsonStringifyCdate (n : Int) : String := ⟨jsonStringifyCdateChars n⟩

/-- `JSON.stringify(\x7b$cdate: t\x7d)` of a `getTime()` result: `NaN`
serializes as `null`. -/
def cdateNullChars : List Char := cdatePrefix ++ ['n', 'u', 'l', 'l', '\x7d']

def stringifyCdateNum : Option Int → String
  | some n => jsonStringifyCdate n
  | none => ⟨cdateNullChars⟩

/-- JSON insignificant whitespace. -/
def isWs (c : Char) : Bool :=
  decide (c = ' ') || decide (c = '\t') || decide (c = '\n') || decide (c = '\r')

def skipWs : List Char → List Char
  | [] => []
  | c :: cs => if isWs c then skipWs cs else c :: cs

/-- The scanner class `[0-9]`. -/
def isDig (c : Char) : Bool := (charDigit? c).isSome

/-- JSON string escapes (the character after the backslash). -/
def escChar? : Char → Option Char
  | '"' => some '"'
  | '\\' => some '\\'
  | '/' => some '/'
  | 'b' => some '\x08'
  | 'f' => some '\x0c'
  | 'n' => some '\n'
  | 'r' => some '\r'
  | 't' => some '\t'
  | _ => none

def hexDigit? (c : Char) : Option Nat :=
  if 48 ≤ c.toNat ∧ c.toNat ≤ 57 then some (c.toNat - 48)
  else if 97 ≤ c.toNat ∧ c.toNat ≤ 102 then some (c.toNat - 87)
  else if 65 ≤ c.toNat ∧ c.toNat ≤ 70 then some (c.toNat - 55)
  else none

/-- The body of a JSON string literal, after the opening quote: the
decoded characters plus the input remaining after the closing quote.  A
`\u` escape decodes to its code point (escapes of surrogate halves,
which Lean characters cannot hold, are outside the model; no theorem
touches them). -/
def parseStrChars : List Char → Option (List Char × List Char)
  | [] => none
  | '"' :: cs => some ([], cs)
  | '\\' :: 'u' :: a :: b :: c2 :: d :: cs2 =>
      match hexDigit? a, hexDigit? b, hexDigit? c2, hexDigit? d with
      | some ha, some hb, some hc, some hd =>
          (parseStrChars cs2).map
            (fun p => (Char.ofNat (((ha * 16 + hb) * 16 + hc) * 16 + hd) :: p.1, p.2))
      | _, _, _, _ => none
  | '\\' :: e :: cs2 =>
      match escChar? e with
      | some ce => (parseStrChars cs2).map (fun p => (ce :: p.1, p.2))
      | none => none
  | '\\' :: [] => none
  | c :: cs =>
      if c.toNat < 32 then none
      else (parseStrChars cs).map (fun p => (c :: p.1, p.2))

def parseExpMag (q : Rat) (neg : Bool) (cs : List Char) : Option (Rat × List Char) :=
  if cs.takeWhile isDig = [] then none
  else
    match parseDigitsAux (cs.takeWhile isDig) 0 with
    | none => none
    | some e => some ((if neg then q / 10 ^ e else q * 10 ^ e), cs.dropWhile isDig)

def parseExpSign (q : Rat) : List Char → Option (Rat × List Char)
  | '+' :: cs => parseExpMag q false cs
  | '-' :: cs => parseExpMag q true cs
  | cs => parseExpMag q false cs

/-- The optional exponent tail of a JSON number. -/
def parseExp (q : Rat) : List Char → Option (Rat × List Char)
  | 'e' :: cs => parseExpSign q cs
  | 'E' :: cs => parseExpSign q cs
  | cs => some (q, cs)

/-- The optional fraction tail of a JSON number. -/
def parseFrac (q : Rat) : List Char → Option (Rat × List Char)
  | '.' :: cs =>
      if cs.takeWhile isDig = [] then none
      else
        match parseDigitsAux (cs.takeWhile isDig) 0 with
        | none => none
        | some fv =>
            parseExp (q + (fv : Rat) / (10 : Rat) ^ (cs.takeWhile isDig).length)
              (cs.dropWhile isDig)
  | cs => parseExp q cs

/-- An unsigned JSON number: integer part (no leading zero), optional
fraction, optional exponent. -/
def parseUNum (cs : List Char) : Option (Rat × List Char) :=
  if cs.takeWhile isDig = [] then none
  else if 1 < (cs.takeWhile isDig).length ∧ (cs.takeWhile isDig).head? = some '0' then none
  else
    match parseDigitsAux (cs.takeWhile isDig) 0 with
    | none => none
    | some iv => parseFrac ((iv : Rat)) (cs.dropWhile isDig)

def parseNum : List Char → Option (Rat × List Char)
  | [] => none
  | c :: cs =>
      if c = '-' then (parseUNum cs).map (fun p => (-p.1, p.2))
      else parseUNum (c :: cs)

mutual

/-- One JSON value.  Fuel-driven: the entry point supplies more fuel than
the input length, and every recursive call first consumes at least one
input character, so the fuel never runs out on any input. -/
def parseValue : Nat → List Char → Option (Json × List Char)
  | 0, _ => none
  | _ + 1, [] => none
  | fuel + 1, c :: cs =>
    if c = 'n' then
      match cs with
      | 'u' :: 'l' :: 'l' :: r => some (Json.null, r)
      | _ => none
    else if c = 't' then
      match cs with
      | 'r' :: 'u' :: 'e' :: r => some (Json.bool true, r)
      | _ => none
    else if c = 'f' then
      match cs with
      | 'a' :: 'l' :: 's' :: 'e' :: r => some (Json.bool false, r)
      | _ => none
    else if c = '"' then
      (parseStrChars cs).map (fun p => (Json.str ⟨p.1⟩, p.2))
    else if c = '[' then
      match skipWs cs with
      | ']' :: r => some (Json.arr [], r)
      | r1 => (parseArrElems fuel r1 []).map (fun p => (Json.arr p.1, p.2))
    else if c = '\x7b' then
      match skipWs cs with
      | '\x7d' :: r => some (Json.obj [], r)
      | r1 => (parseObjMembers fuel r1 []).map (fun p => (Json.obj p.1, p.2))
    else
      (parseNum (c :: cs)).map (fun p => (Json.num (some p.1), p.2))

def parseArrElems : Nat → List Char → List Json → Option (List Json × List Char)
  | 0, _, _ => none
  | fuel + 1, cs, acc =>
    match parseValue fuel cs with
    | none => none
    | some (v, rem) =>
      match skipWs rem with
      | ',' :: rem2 => parseArrElems fuel (skipWs rem2) (acc ++ [v])
      | ']' :: rem2 => some (acc ++ [v], rem2)
      | _ => none

def parseObjMembers : Nat → List Char → List (String × Json) →
    Option (List (String × Json) × List Char)
  | 0, _, _ => none
  | fuel + 1, '"' :: cs1, acc =>
      match parseStrChars cs1 with
      | none => none
      | some (kout, rem) =>
        match skipWs rem with
        | ':' :: rem2 =>
          match parseValue fuel (skipWs rem2) with
          | none => none
          | some (v, rem3) =>
            match skipWs rem3 with
            | ',' :: rem4 => parseObjMembers fuel (skipWs rem4) (acc ++ [(⟨kout⟩, v)])
            | '\x7d' :: rem4 => some (acc ++ [(⟨kout⟩, v)], rem4)
            | _ => none
        | _ => none
  | _ + 1, _, _ => none

end

/-- `JSON.parse`: a single whitespace-framed JSON value; anything else
raises `SyntaxError`. -/
def jsonParse (s : String) : Except Unit Json :=
  match parseValue ((skipWs s.data).length + 2) (skipWs s.data) with
  | some (v, rest) => if skipWs rest = [] then Except.ok v else Except.error ()
  | none => Except.error ()

/-- Property lookup on a JavaScript value (for duplicate JSON members the
last one wins, as in `JSON.parse`); `none` is `undefined`, the result on
primitives and arrays. -/
def jsGet : Json → String → Option Json
  | Json.obj fields, f => (fields.reverse.find? (fun p => decide (p.1 = f))).map Prod.snd
  | _, _ => none

/-- Plain member access `v.f`: raises `TypeError` on `null`. -/
def jsGetStrict (v : Json) (f : String) : Except Unit (Option Json) :=
  match v with
  | Json.null => Except.error ()
  | _ => Except.ok (jsGet v f)

/-- Optional chaining `v?.f`: `undefined` on `null`. -/
def jsGetOpt (v : Json) (f : String) : Option Json :=
  match v with
  | Json.null => none
  | _ => jsGet v f

/-- The largest ECMAScript time value, `8.64e15` milliseconds. -/
def timeMax : Nat := 8640000000000000

/-- Truncation toward zero (`ToIntegerOrInfinity` of a finite number). -/
def ratTrunc (q : Rat) : Int := Int.tdiv q.num (q.den : Int)

/-- `TimeClip`: an out-of-range time gives an Invalid Date. -/
def timeClip (q : Rat) : Option Int :=
  if |q| ≤ (timeMax : Rat) then some (ratTrunc q) else none

/-- `new Date(x).getTime()` (the argument `none` is `undefined`, the
result `none` is an Invalid Date).  String, array and object arguments go
through the ECMA date-string grammar and `ToPrimitive`, which the
embedding does not model: it maps them to an Invalid Date.  That is exact
for every value this program itself writes into a `$cdate` field (only
numbers and `null`); no theorem below touches the other payloads. -/
def newDateTime : Option Json → Option Int
  | none => none
  | some Json.null => some 0
  | some (Json.bool b) => some (if b then 1 else 0)
  | some (Json.num none) => none
  | some (Json.num (some q)) => timeClip q
  | some (Json.str _) => none
  | some (Json.arr _) => none
  | some (Json.obj _) => none

/-- `String(t)` of a `getTime()` result. -/
def jsTimeString : Option Int → String
  | some n => intToJsString n
  | none => "NaN"

/-- JavaScript truthiness of a JSON value. -/
def jsonTruthy : Json → Bool
  | Json.null => false
  | Json.bool b => b
  | Json.num none => false
  | Json.num (some q) => decide (q ≠ 0)
  | Json.str s => decide (s ≠ "")
  | Json.arr _ => true
  | Json.obj _ => true

theorem charDigit?_digitChar (d : Nat) (h : d < 10) :
    charDigit? (digitChar d) = some d := by
  interval_cases d <;> rfl

theorem charDigit?_digitChar_isSome (d : Nat) :
    (charDigit? (digitChar d)).isSome = true := by
  by_cases h : d < 10
  · rw [charDigit?_digitChar d h]
    rfl
  · have : digitChar d = '9' := by
      obtain ⟨e, rfl⟩ : ∃ e, d = e + 9 := ⟨d - 9, by omega⟩
      rfl
    rw [this]
    rfl

theorem digitChar_ne_dash (d : Nat) : digitChar d ≠ '-' := by
  intro h
  have := charDigit?_digitChar_isSome d
  rw [h] at this
  cases this

theorem parseDigitsAux_append (xs ys : List Char) :
    ∀ acc, parseDigitsAux (xs ++ ys) acc =
      (match parseDigitsAux xs acc with
       | some a => parseDigitsAux ys a
       | none => none) := by
  induction xs with
  | nil => intro acc; rfl
  | cons c cs ih =>
    intro acc
    simp only [List.cons_append, parseDigitsAux]
    cases charDigit? c with
    | some d => exact ih _
    | none => rfl

theorem natDigitsRev_ne_nil (n : Nat) : natDigitsRev n ≠ [] := by
  rw [natDigitsRev]
  split <;> simp

theorem parseDigitsAux_natDigitsRev (n : Nat) :
    ∀ acc, parseDigitsAux ((natDigitsRev n).reverse) acc =
      some (acc * 10 ^ (natDigitsRev n).length + n) := by
  induction n using Nat.strong_induction_on with
  | _ n ih =>
    intro acc
    rw [natDigitsRev]
    by_cases h : n < 10
    · rw [dif_pos h]
      simp only [List.reverse_singleton, List.length_singleton, parseDigitsAux,
        charDigit?_digitChar n h]
      simp [parseDigitsAux]
    · rw [dif_neg h]
      simp only [List.reverse_cons, List.length_cons]
      rw [parseDigitsAux_append]
      rw [ih (n / 10) (Nat.div_lt_self (by omega) (by omega)) acc]
      simp only [parseDigitsAux, charDigit?_digitChar (n % 10) (Nat.mod_lt n (by omega))]
      congr 1
      have hdm : 10 * (n / 10) + n % 10 = n := Nat.div_add_mod n 10
      rw [pow_succ]
      ring_nf
      omega

theorem parseNatChars_natDigitsRev (n : Nat) :
    parseNatChars ((natDigitsRev n).reverse) = some n := by
  unfold parseNatChars
  rw [if_neg (by simp [natDigitsRev_ne_nil n])]
  rw [parseDigitsAux_natDigitsRev n 0]
  simp

/-- `getModel(key, cache)`, as the resulting `Date`'s time value: the
object branch is `new Date(cache.data.$cdate)` (plain access — a
`TypeError` on `null`), the string branch is
`new Date(JSON.parse(cache.data)?.$cdate)` (optional chaining, and a
`SyntaxError` on invalid JSON). -/
def getModel : DateData → Except Unit (Option Int)
  | DateData.model d => Except.ok d
  | DateData.object v => (jsGetStrict v "$cdate").map newDateTime
  | DateData.stringValue s =>
      (jsonParse s).map (fun v => newDateTime (jsGetOpt v "$cdate"))

/-- `getStringValue(key, cache)`: the model and object branches stringify
`\x7b$cdate: ...getTime()\x7d`, the string branch passes through. -/
def getStringValue : DateData → Except Unit String
  | DateData.model d => Except.ok (stringifyCdateNum d)
  | DateData.object v =>
      (jsGetStrict v "$cdate").map (fun f => stringifyCdateNum (newDateTime f))
  | DateData.stringValue s => Except.ok s

/-- `getObject(key, cache)`: the string branch returns the raw
`JSON.parse` result (whatever value that is). -/
def getObject : DateData → Except Unit Json
  | DateData.model d =>
      Except.ok (Json.obj [("$cdate", Json.num (d.map (fun i => (i : Rat))))])
  | DateData.object v => Except.ok v
  | DateData.stringValue s => jsonParse s

/-- The `switch (targetTier)` of `handleCacheEntry`, rewrapping the
converted payload as a value of the target tier. -/
def reprojectDate : DateTier → DateData → Except Unit DateData
  | DateTier.model, d => (getModel d).map DateData.model
  | DateTier.object, d => (getObject d).map DateData.object
  | DateTier.stringValue, d => (getStringValue d).map DateData.stringValue

/-- JavaScript truthiness of a reprojected value: a `Date` object is
always truthy (also when Invalid), an object-tier value follows JSON
truthiness (it can be a primitive at runtime), a string is truthy iff
nonempty. -/
def dateTruthy : DateData → Bool
  | DateData.model _ => true
  | DateData.object v => jsonTruthy v
  | DateData.stringValue s => decide (s ≠ "")

def dateHandleCacheEntry (_k : String) (tier : DateTier)
    (entry : Option (TieredCache.TierEntry DateTier DateData)) :
    Except Unit (Option DateData) :=
  match entry with
  | none => Except.ok none
  | some e => (reprojectDate tier e.data).map some

def dateTierDefaultTimeout : DateTier → Nat
  | DateTier.model => 100
  | DateTier.object => 100
  | DateTier.stringValue => 100

def dateHandleTimeoutValue (_k : String) (tier : DateTier) (_d : DateData) :
    Except Unit (Option Nat) :=
  Except.ok (some (dateTierDefaultTimeout tier))

/-- `handleTierTimeout`: migrate model → object → stringValue via
`handleSetValue`, delete at the terminal tier.  The object branch stores
`new Date(cache.data.$cdate).getTime().toString()` — a bare decimal
string (or `"NaN"`), not JSON of the object — and its plain `$cdate`
access throws before any mutation when the payload is `null`. -/
def dateHandleTierTimeout (k : String)
    (s : TieredCache.State String DateTier DateData Unit) :
    TieredCache.State String DateTier DateData Unit × Except Unit (Option Nat) :=
  match s.cache.get k with
  | some e =>
      match e.data with
      | DateData.model d =>
          let r := TieredCache.handleSetValue dateHandleTimeoutValue s k
            DateTier.object
            (DateData.object (Json.obj [("$cdate", Json.num (d.map (fun i => (i : Rat))))]))
            none
          match r.2 with
          | Except.ok _ => (r.1, Except.ok (some (dateTierDefaultTimeout DateTier.object)))
          | Except.error err => (r.1, Except.error err)
      | DateData.object v =>
          match jsGetStrict v "$cdate" with
          | Except.error err => (s, Except.error err)
          | Except.ok f =>
              let r := TieredCache.handleSetValue dateHandleTimeoutValue s k
                DateTier.stringValue
                (DateData.stringValue (jsTimeString (newDateTime f))) none
              match r.2 with
              | Except.ok _ =>
                  (r.1, Except.ok (some (dateTierDefaultTimeout DateTier.stringValue)))
              | Except.error err => (r.1, Except.error err)
      | DateData.stringValue _ =>
          let rr := s.cache.delete k
          ({ s with cache := rr.2 }, Except.ok none)
  | none => (s, Except.ok none)

/-- The `DateTieredCache` strategy as a hook record. -/
def dateHooks : TieredCache.Hooks String DateTier DateData Unit :=
  { truthy := dateTruthy
    handleCacheEntry := dateHandleCacheEntry
    handleTimeoutValue := dateHandleTimeoutValue
    handleTierDefaultTimeout := fun t => some (dateTierDefaultTimeout t)
    handleTierTimeout := dateHandleTierTimeout }

theorem dateHooks_timerSafe : TieredCache.HookTimerSafe dateHooks := by
  intro k s h
  show TieredCache.TimerWF (dateHandleTierTimeout k s).1
  cases hk : s.cache.get k with
  | none => simpa [dateHandleTierTimeout, hk] using h
  | some e =>
    cases hd : e.data with
    | model d =>
      have hsv := TieredCache.handleSetValue_timerWF dateHandleTimeoutValue s k
        DateTier.object
        (DateData.object (Json.obj [("$cdate", Json.num (d.map (fun i => (i : Rat))))]))
        none h
      cases hr : (TieredCache.handleSetValue dateHandleTimeoutValue s k
          DateTier.object
          (DateData.object (Json.obj [("$cdate", Json.num (d.map (fun i => (i : Rat))))]))
          none).2 with
      | ok u =>
        simpa [dateHandleTierTimeout, hk, hd, hr] using hsv
      | error err =>
        simpa [dateHandleTierTimeout, hk, hd, hr] using hsv
    | object v =>
      cases hacc : jsGetStrict v "$cdate" with
      | error u => simpa [dateHandleTierTimeout, hk, hd, hacc] using h
      | ok f =>
        have hsv := TieredCache.handleSetValue_timerWF dateHandleTimeoutValue s k
          DateTier.stringValue
          (DateData.stringValue (jsTimeString (newDateTime f))) none h
        cases hr : (TieredCache.handleSetValue dateHandleTimeoutValue s k
            DateTier.stringValue
            (DateData.stringValue (jsTimeString (newDateTime f))) none).2 with
        | ok u =>
          simpa [dateHandleTierTimeout, hk, hd, hacc, hr] using hsv
        | error err =>
          simpa [dateHandleTierTimeout, hk, hd, hacc, hr] using hsv
    | stringValue str =>
      have := TieredCache.timerWF_ext
        { s with cache := (s.cache.delete k).2 } s rfl rfl rfl h
      simpa [dateHandleTierTimeout, hk, hd] using this

end DateTieredCache

namespace ExpireTimeoutCache

theorem initial_timerWF {K P : Type} [DecidableEq K] [DecidableEq P]
    (d : Option Nat) : TimerWF (initial d : State K P) := by
  refine ⟨?_, ?_, ?_, ?_⟩ <;>
    simp [initial, JsMap.WF, JsMap.alive, JsMap.empty]

end ExpireTimeoutCache

namespace TieredCache

instance {Key Tier Data E : Type} [DecidableEq Key] [DecidableEq Tier]
    [DecidableEq Data] (s : State Key Tier Data E) : Decidable (TimerWF s) := by
  unfold TimerWF; infer_instance

end TieredCache

/-- Claim C10: for both the lazy-expiring and timer-expiring caches, a
configured default expiry offset of exactly 0 ms behaves the same as no
default at all: an entry set without an explicit expires argument is
stored with no expiry timestamp and no timer, and never expires (the
lazy sweep never removes it; no firing is ever scheduled for it). -/
theorem C10_zero_default_like_no_default :
    (∀ (K P : Type) [DecidableEq K] [DecidableEq P]
       (s : ExpireCache.State K P) (k : K) (v : P) (e : Option Nat),
       s.defaultExpireMs = some 0 →
         (ExpireCache.getExpireDate s e =
            ExpireCache.getExpireDate (ExpireCache.setExpireMs s none) e ∧
          (ExpireCache.set s k v none).cacheTtl.get k = some none ∧
          (ExpireCache.set s k v none).cache.get k = some v)) ∧
    (∀ (K P : Type) [DecidableEq K] [DecidableEq P]
       (tr : P → Bool) (s : ExpireCache.State K P) (k : K),
       ExpireCache.MapsWF s → s.cacheTtl.get k = some none →
         ((ExpireCache.cleanExpired tr s).cache.get k = s.cache.get k ∧
          (ExpireCache.cleanExpired tr s).cacheTtl.get k = some none)) ∧
    (∀ (K P : Type) [DecidableEq K] [DecidableEq P]
       (s : ExpireTimeoutCache.State K P) (k : K) (v : P) (e : Option Nat),
       s.defaultExpireMs = some 0 →
         (ExpireTimeoutCache.getExpireDate s e =
            ExpireTimeoutCache.getExpireDate (ExpireTimeoutCache.setExpireMs s none) e ∧
          (ExpireTimeoutCache.set s k v none).cacheTimeout.get k = some (none, none) ∧
          (ExpireTimeoutCache.set s k v none).cache.get k = some v)) ∧
    (∀ (K P : Type) [DecidableEq K] [DecidableEq P]
       (s : ExpireTimeoutCache.State K P) (k : K) (v : P),
       ExpireTimeoutCache.TimerWF s → s.defaultExpireMs = some 0 →
         ExpireTimeoutCache.countPending (ExpireTimeoutCache.set s k v none) k = 0) := by
  refine ⟨?_, ?_, ?_, ?_⟩
  · intro K P instK instP s k v e hdef
    have hged : ExpireCache.getExpireDate s none = none := by
      simp [ExpireCache.getExpireDate, hdef, Option.orElse]
    refine ⟨?_, ?_, ?_⟩
    · simp [ExpireCache.getExpireDate, ExpireCache.setExpireMs, hdef]
    · show (s.cacheTtl.set k (ExpireCache.getExpireDate s none)).get k = some none
      rw [hged]
      exact JsMap.get_set_self _ k none
    · exact JsMap.get_set_self _ k v
  · intro K P instK instP tr s k h httl
    obtain ⟨_, hc, ht, _, _, _⟩ := ExpireCache.cleanExpired_char tr s h
    constructor
    · rw [hc k, httl]
      simp [ExpireCache.sweepVerdict]
    · rw [ht k, httl]
      simp [ExpireCache.sweepVerdict]
  · intro K P instK instP s k v e hdef
    obtain ⟨hc, hn, hnow, hd, hev⟩ := ExpireTimeoutCache.clearTimeoutKey_proj_etc s k
    have hged : ExpireTimeoutCache.getExpireDate (ExpireTimeoutCache.clearTimeoutKey s k) none = none := by
      simp [ExpireTimeoutCache.getExpireDate, hd, hdef, Option.orElse]
    refine ⟨?_, ?_, ?_⟩
    · simp [ExpireTimeoutCache.getExpireDate, ExpireTimeoutCache.setExpireMs, hdef]
    · show ((ExpireTimeoutCache.handleTimeoutSetup (ExpireTimeoutCache.clearTimeoutKey s k) k
          (ExpireTimeoutCache.getExpireDate (ExpireTimeoutCache.clearTimeoutKey s k) none)).1.cacheTimeout.set k _).get k = _
      rw [JsMap.get_set_self]
      rw [hged]
      rfl
    · show ((ExpireTimeoutCache.handleTimeoutSetup (ExpireTimeoutCache.clearTimeoutKey s k) k
          (ExpireTimeoutCache.getExpireDate (ExpireTimeoutCache.clearTimeoutKey s k) none)).1.cache.set k v).get k = _
      rw [JsMap.get_set_self]
  · intro K P instK instP s k v h hdef
    have := (ExpireTimeoutCache.set_spec s k v none h).2
    rw [this]
    obtain ⟨_, _, hnow, hd, _⟩ := ExpireTimeoutCache.clearTimeoutKey_proj_etc s k
    simp [ExpireTimeoutCache.getExpireDate, hdef, Option.orElse]

/-- Witness for C10 at concrete inputs. -/
theorem C10_witness :
    (ExpireCache.getExpireDate (ExpireCache.initial (some 0) : ExpireCache.State String String) none =
       ExpireCache.getExpireDate (ExpireCache.setExpireMs (ExpireCache.initial (some 0) : ExpireCache.State String String) none) none ∧
     (ExpireCache.set (ExpireCache.initial (some 0) : ExpireCache.State String String) "k" "v" none).cacheTtl.get "k" = some none ∧
     (ExpireCache.set (ExpireCache.initial (some 0) : ExpireCache.State String String) "k" "v" none).cache.get "k" = some "v") ∧
    ((ExpireCache.cleanExpired (fun v => decide (v ≠ ""))
        (ExpireCache.set (ExpireCache.initial (some 0) : ExpireCache.State String String) "k" "v" none)).cache.get "k" =
       (ExpireCache.set (ExpireCache.initial (some 0) : ExpireCache.State String String) "k" "v" none).cache.get "k" ∧
     (ExpireCache.cleanExpired (fun v => decide (v ≠ ""))
        (ExpireCache.set (ExpireCache.initial (some 0) : ExpireCache.State String String) "k" "v" none)).cacheTtl.get "k" = some none) ∧
    ((ExpireTimeoutCache.set (ExpireTimeoutCache.initial (some 0) : ExpireTimeoutCache.State String String) "k" "v" none).cacheTimeout.get "k" = some (none, none) ∧
     (ExpireTimeoutCache.set (ExpireTimeoutCache.initial (some 0) : ExpireTimeoutCache.State String String) "k" "v" none).cache.get "k" = some "v") ∧
    ExpireTimeoutCache.countPending
      (ExpireTimeoutCache.set (ExpireTimeoutCache.initial (some 0) : ExpireTimeoutCache.State String String) "k" "v" none) "k" = 0 := by
  refine ⟨?_, ?_, ?_, ?_⟩
  · exact C10_zero_default_like_no_default.1 String String
      (ExpireCache.initial (some 0)) "k" "v" none rfl
  · exact C10_zero_default_like_no_default.2.1 String String (fun v => decide (v ≠ ""))
      (ExpireCache.set (ExpireCache.initial (some 0) : ExpireCache.State String String) "k" "v" none) "k"
      (by decide) (by decide)
  · exact (C10_zero_default_like_no_default.2.2.1 String String
      (ExpireTimeoutCache.initial (some 0)) "k" "v" none rfl).2
  · exact C10_zero_default_like_no_default.2.2.2 String String
      (ExpireTimeoutCache.initial (some 0)) "k" "v"
      (ExpireTimeoutCache.initial_timerWF (some 0)) rfl

/-- Claim C9 (amended): for both simple caches, `delete(key)` removes the
entry unconditionally and returns true exactly when an entry existed;
when the stored payload is truthy it emits BOTH a delete notification and
an `expires` notification for the removed entry (`ExpireCache` notifies
expired-then-deleted, `ExpireTimeoutCache` deleted-then-expired); a falsy
payload is removed silently. -/
theorem C9_delete_notifications :
    (∀ (K P : Type) [DecidableEq K] [DecidableEq P] (tr : P → Bool)
       (s : ExpireCache.State K P) (k : K), ExpireCache.MapsWF s →
       ((ExpireCache.delete tr s k).2 = (s.cache.get k).isSome ∧
        ((ExpireCache.delete tr s k).1).cache.get k = none ∧
        ((ExpireCache.delete tr s k).1).cacheTtl.get k = none ∧
        ((ExpireCache.delete tr s k).1).events = s.events ++
          (match s.cache.get k with
           | some v =>
               if tr v then [ExpireCache.Ev.expires k v, ExpireCache.Ev.delete k] else []
           | none => []))) ∧
    (∀ (K P : Type) [DecidableEq K] [DecidableEq P] (tr : P → Bool)
       (s : ExpireTimeoutCache.State K P) (k : K), s.cache.WF →
       ((ExpireTimeoutCache.delete tr s k).2 = (s.cache.get k).isSome ∧
        ((ExpireTimeoutCache.delete tr s k).1).cache.get k = none ∧
        ((ExpireTimeoutCache.delete tr s k).1).events = s.events ++
          (match s.cache.get k with
           | some v =>
               if tr v then
                 [ExpireTimeoutCache.Ev.delete k, ExpireTimeoutCache.Ev.expires k v]
               else []
           | none => []))) := by
  constructor
  · intro K P instK instP tr s k h
    cases hv : s.cache.get k with
    | none =>
      simp only [ExpireCache.delete, hv]
      simp [JsMap.delete_fst, JsMap.get_delete_self _ k h.1,
        JsMap.get_delete_self _ k h.2, hv]
    | some v =>
      by_cases htr : tr v
      · simp only [ExpireCache.delete, hv, if_pos htr]
        simp [JsMap.delete_fst, JsMap.get_delete_self _ k h.1,
          JsMap.get_delete_self _ k h.2, hv]
      · simp only [ExpireCache.delete, hv, if_neg htr]
        simp [JsMap.delete_fst, JsMap.get_delete_self _ k h.1,
          JsMap.get_delete_self _ k h.2, hv]
  · intro K P instK instP tr s k h
    obtain ⟨hc, hn, hnow, hd, hev⟩ := ExpireTimeoutCache.clearTimeoutKey_proj_etc s k
    have hcc : (ExpireTimeoutCache.clearTimeoutKey s k).cache.get k = s.cache.get k := by
      rw [hc]
    have hcwf : (ExpireTimeoutCache.clearTimeoutKey s k).cache.WF := by
      rw [hc]
      exact h
    cases hv : s.cache.get k with
    | none =>
      simp only [ExpireTimeoutCache.delete, hcc, hv]
      simp [JsMap.delete_fst, JsMap.get_delete_self _ k hcwf, hcc, hv, hev]
    | some v =>
      by_cases htr : tr v
      · simp only [ExpireTimeoutCache.delete, hcc, hv, if_pos htr]
        simp [JsMap.delete_fst, JsMap.get_delete_self _ k hcwf, hcc, hv, hev]
      · simp only [ExpireTimeoutCache.delete, hcc, hv, if_neg htr]
        simp [JsMap.delete_fst, JsMap.get_delete_self _ k hcwf, hcc, hv, hev]

/-- Counterexample for C9 as stated: an explicit `delete` of a present
(truthy) entry emits an `expires` notification in addition to the
`delete` notification — the entry is notified as expired too, not only
as deleted. -/
theorem C9_counterexample :
    ((ExpireCache.delete (fun v => decide (v ≠ ""))
        (ExpireCache.set (ExpireCache.initial none : ExpireCache.State String String)
          "k" "v" none) "k").1).events =
      [ExpireCache.Ev.set "k" "v" none, ExpireCache.Ev.expires "k" "v",
       ExpireCache.Ev.delete "k"] ∧
    ((ExpireTimeoutCache.delete (fun v => decide (v ≠ ""))
        (ExpireTimeoutCache.set
          (ExpireTimeoutCache.initial none : ExpireTimeoutCache.State String String)
          "k" "v" none) "k").1).events =
      [ExpireTimeoutCache.Ev.delete "k", ExpireTimeoutCache.Ev.expires "k" "v"] := by
  constructor
  · rfl
  · rfl

/-- Witness for C9 at concrete inputs. -/
theorem C9_witness :
    (ExpireCache.delete (fun v => decide (v ≠ ""))
        (ExpireCache.set (ExpireCache.initial none : ExpireCache.State String String)
          "k" "v" none) "k").2 = true ∧
    (ExpireTimeoutCache.delete (fun v => decide (v ≠ ""))
        (ExpireTimeoutCache.set
          (ExpireTimeoutCache.initial none : ExpireTimeoutCache.State String String)
          "k" "v" none) "k").2 = true := by
  constructor
  · have h := C9_delete_notifications.1 String String (fun v => decide (v ≠ ""))
      (ExpireCache.set (ExpireCache.initial none) "k" "v" none) "k" (by decide)
    rw [h.1]
    decide
  · have h := C9_delete_notifications.2 String String (fun v => decide (v ≠ ""))
      (ExpireTimeoutCache.set (ExpireTimeoutCache.initial none) "k" "v" none) "k"
      (by decide)
    rw [h.1]
    decide

/-- Claim C7 (amended): every call to `get`, `has`, `entries`, `keys`,
or `values` first sweeps, removing from the ttl map every tracked key
whose stored expiry is strictly in the past, and from the value cache
those of them whose stored payload is truthy, notifying each removed
entry as expired, before the result is computed from the swept state; an
expiry exactly equal to the current time is NOT yet expired (strict
less-than), so such an entry survives the sweep and is served;
`expires(key)` computes its result from the pre-sweep ttl record and
then sweeps. -/
theorem C7_read_sweeps_strictly_past :
    ∀ (K P : Type) [DecidableEq K] [DecidableEq P] (tr : P → Bool)
      (s : ExpireCache.State K P) (k : K), ExpireCache.MapsWF s →
      ((ExpireCache.get tr s k).2 = ((ExpireCache.get tr s k).1).cache.get k ∧
       (∀ k', ((ExpireCache.get tr s k).1).cacheTtl.get k' =
           (if ExpireCache.sweepVerdict s.now (s.cacheTtl.get k') then none
            else s.cacheTtl.get k')) ∧
       (∀ k', ((ExpireCache.get tr s k).1).cache.get k' =
           (if ExpireCache.sweepVerdict s.now (s.cacheTtl.get k') &&
               ExpireCache.truthyOpt tr (s.cache.get k') then none
            else s.cache.get k')) ∧
       ((ExpireCache.get tr s k).1).events =
         (s.events ++ [ExpireCache.Ev.get k]) ++
           (ExpireCache.collectExpired tr s.now s.cache s.cacheTtl.alive).map
             (fun kv => ExpireCache.Ev.expires kv.1 kv.2)) ∧
      (s.cacheTtl.get k = some (some s.now) →
        ((ExpireCache.get tr s k).1).cache.get k = s.cache.get k ∧
        (ExpireCache.get tr s k).2 = s.cache.get k) ∧
      ((ExpireCache.has tr s k).1 = ExpireCache.cleanExpired tr s ∧
       (ExpireCache.has tr s k).2 = (ExpireCache.cleanExpired tr s).cache.hasKey k) ∧
      ((ExpireCache.entries tr s).1 = ExpireCache.cleanExpired tr s ∧
       (ExpireCache.entries tr s).2 = (ExpireCache.cleanExpired tr s).cache.alive) ∧
      ((ExpireCache.keys tr s).1 = ExpireCache.cleanExpired tr s ∧
       (ExpireCache.keys tr s).2 = (ExpireCache.cleanExpired tr s).cache.keysList) ∧
      ((ExpireCache.values tr s).1 = ExpireCache.cleanExpired tr s) ∧
      ((ExpireCache.expires tr s k).1 = ExpireCache.cleanExpired tr s ∧
       (ExpireCache.expires tr s k).2 =
         (match (s.cacheTtl.get k).join with
          | some ts => if ts ≠ 0 then some ts else none
          | none => none)) := by
  intro K P instK instP tr s k h
  have h1 : ExpireCache.MapsWF { s with events := s.events ++ [ExpireCache.Ev.get k] } := h
  obtain ⟨hwf, hc, ht, hevs, hnow, hdef⟩ :=
    ExpireCache.cleanExpired_char tr { s with events := s.events ++ [ExpireCache.Ev.get k] } h1
  refine ⟨⟨rfl, ?_, ?_, ?_⟩, ?_, ⟨rfl, rfl⟩, ⟨rfl, rfl⟩, ⟨rfl, rfl⟩, rfl, ⟨rfl, rfl⟩⟩
  · intro k'
    exact ht k'
  · intro k'
    exact hc k'
  · exact hevs
  · intro hk
    have hcache := hc k
    rw [hk] at hcache
    simp only [ExpireCache.sweepVerdict] at hcache
    rw [if_neg (by simp)] at hcache
    exact ⟨hcache, hcache⟩

/-- Counterexample for C7 as stated: an entry whose recorded expiry
equals the current time is claimed "already expired" and so removed
before the read is served; the code's strict `<` keeps it — `get` at
time 5 on a key whose expiry is 5 serves the value and leaves the entry
in storage. -/
theorem C7_counterexample :
    (ExpireCache.get (fun v => decide (v ≠ ""))
        { ExpireCache.set (ExpireCache.initial none : ExpireCache.State String String)
            "k" "v" (some 5) with now := 5 } "k").2 = some "v" ∧
    ((ExpireCache.get (fun v => decide (v ≠ ""))
        { ExpireCache.set (ExpireCache.initial none : ExpireCache.State String String)
            "k" "v" (some 5) with now := 5 } "k").1).cache.get "k" = some "v" := by
  constructor
  · rfl
  · rfl

/-- Witness for C7 at concrete inputs. -/
theorem C7_witness :
    ((ExpireCache.get (fun v => decide (v ≠ ""))
        { ExpireCache.set (ExpireCache.initial none : ExpireCache.State String String)
            "k" "v" (some 5) with now := 9 } "k").1).cacheTtl.get "k" = none ∧
    ((ExpireCache.get (fun v => decide (v ≠ ""))
        { ExpireCache.set (ExpireCache.initial none : ExpireCache.State String String)
            "k" "v" (some 5) with now := 9 } "k").1).cache.get "k" = none := by
  have h := C7_read_sweeps_strictly_past String String (fun v => decide (v ≠ ""))
    { ExpireCache.set (ExpireCache.initial none : ExpireCache.State String String)
        "k" "v" (some 5) with now := 9 } "k" (by decide)
  constructor
  · rw [h.1.2.1 "k"]
    decide
  · rw [h.1.2.2.1 "k"]
    decide

namespace JsMap

theorem get_delete_of_absent {K V : Type} [DecidableEq K]
    (m : JsMap K V) (k : K) (h : m.get k = none) :
    ∀ k', (m.delete k).2.get k' = m.get k' := by
  intro k'
  show lookupList (m.delete k).2.alive k' = lookupList m.alive k'
  rw [alive_delete, remList_of_lookup_none _ _ h]

end JsMap

namespace TieredCache

variable {Key Tier Data E : Type} [DecidableEq Key] [DecidableEq Tier]
  [DecidableEq Data]

theorem deleteKeysLoop_events :
    ∀ (ks : List Key) (s : State Key Tier Data E),
      (deleteKeysLoop s ks).1.events = s.events := by
  intro ks
  induction ks with
  | nil => intro s; rfl
  | cons k rest ih =>
    intro s
    simp only [deleteKeysLoop]
    rw [ih]
    exact (clearTimeoutKey_proj s k).2.2.2.1

theorem deleteKeysLoop_absent :
    ∀ (ks : List Key) (s : State Key Tier Data E),
      (∀ k' ∈ ks, s.cache.get k' = none) → (deleteKeysLoop s ks).2 = [] := by
  intro ks
  induction ks with
  | nil => intro s _; rfl
  | cons k rest ih =>
    intro s h
    have hk : s.cache.get k = none := h k (List.mem_cons_self _ _)
    have hck : (clearTimeoutKey s k).cache.get k = none := by
      rw [(clearTimeoutKey_proj s k).1]
      exact hk
    have hr1 : ((clearTimeoutKey s k).cache.delete k).1 = false := by
      rw [JsMap.delete_fst, hck]
      rfl
    simp only [deleteKeysLoop, hr1]
    have hrest : ∀ k' ∈ rest,
        (({ clearTimeoutKey s k with
            cache := ((clearTimeoutKey s k).cache.delete k).2 } :
          State Key Tier Data E)).cache.get k' = none := by
      intro k' hk'
      show ((clearTimeoutKey s k).cache.delete k).2.get k' = none
      rw [JsMap.get_delete_of_absent _ k hck k']
      rw [(clearTimeoutKey_proj s k).1]
      exact h k' (List.mem_cons_of_mem _ hk')
    rw [ih _ hrest]
    simp

end TieredCache

/-- Claim C3 (amended): `delete(key)` emits the `delete` and `update`
notifications only when the key was actually removed, but
`deleteKeys(keys)` emits one `delete` notification (listing the
actually-removed keys, possibly the empty list) and one `update`
notification unconditionally — also when no key was removed — while
still returning the number of removed keys (0 in that case). -/
theorem C3_deleteKeys_always_notifies :
    ∀ (Key Tier Data E : Type) [DecidableEq Key] [DecidableEq Tier] [DecidableEq Data]
      (s : TieredCache.State Key Tier Data E) (k : Key) (ks : List Key),
      ((TieredCache.delete s k).2 = (s.cache.get k).isSome) ∧
      ((s.cache.get k).isSome = false →
        ((TieredCache.delete s k).1.events = s.events ∧
         (TieredCache.delete s k).2 = false)) ∧
      ((s.cache.get k).isSome = true →
        (TieredCache.delete s k).1.events = s.events ++
          [TieredCache.Ev.delete [k],
           TieredCache.Ev.update
             (TieredCache.buildStatusData ((TieredCache.delete s k).1.cache))]) ∧
      ((TieredCache.deleteKeys s ks).1.events = s.events ++
          [TieredCache.Ev.delete (TieredCache.deleteKeysLoop s ks).2,
           TieredCache.Ev.update
             (TieredCache.buildStatusData ((TieredCache.deleteKeys s ks).1.cache))] ∧
       (TieredCache.deleteKeys s ks).2 = (TieredCache.deleteKeysLoop s ks).2.length) ∧
      ((∀ k' ∈ ks, s.cache.get k' = none) → (TieredCache.deleteKeys s ks).2 = 0) := by
  intro Key Tier Data E instK instT instD s k ks
  have hdv : (TieredCache.handleDeleteValue s k).2 = (s.cache.get k).isSome := by
    show ((TieredCache.clearTimeoutKey s k).cache.delete k).1 = _
    rw [JsMap.delete_fst, (TieredCache.clearTimeoutKey_proj s k).1]
  refine ⟨?_, ?_, ?_, ⟨?_, ?_⟩, ?_⟩
  · by_cases hb : (TieredCache.handleDeleteValue s k).2 = true
    · simp [TieredCache.delete, hb]
      rw [← hdv, hb]
    · have hb' : (TieredCache.handleDeleteValue s k).2 = false := by
        cases hx : (TieredCache.handleDeleteValue s k).2
        · rfl
        · exact absurd hx hb
      simp [TieredCache.delete, hb']
      have h1 : (s.cache.get k).isSome = false := by
        rw [← hdv]
        exact hb'
      cases hx : s.cache.get k
      · rfl
      · rw [hx] at h1
        simp at h1
  · intro habs
    have hb' : (TieredCache.handleDeleteValue s k).2 = false := by
      rw [hdv, habs]
    simp [TieredCache.delete, hb']
    exact (TieredCache.clearTimeoutKey_proj s k).2.2.2.1
  · intro hpres
    have hb : (TieredCache.handleDeleteValue s k).2 = true := by
      rw [hdv, hpres]
    simp [TieredCache.delete, hb, TieredCache.buildStatus]
    exact (TieredCache.clearTimeoutKey_proj s k).2.2.2.1
  · simp [TieredCache.deleteKeys, TieredCache.buildStatus,
      TieredCache.deleteKeysLoop_events]
  · rfl
  · intro habs
    show (TieredCache.deleteKeysLoop s ks).2.length = 0
    rw [TieredCache.deleteKeysLoop_absent ks s habs]
    rfl

/-- Counterexample for C3 as stated: `deleteKeys` on a list of keys none
of which is stored returns 0 but still emits a `delete` notification
(with the empty key list) and an `update` notification. -/
theorem C3_counterexample :
    (TieredCache.deleteKeys
        (TieredCache.initial :
          TieredCache.State String DateTieredCache.DateTier DateTieredCache.DateData Unit)
        ["a"]).2 = 0 ∧
    (TieredCache.deleteKeys
        (TieredCache.initial :
          TieredCache.State String DateTieredCache.DateTier DateTieredCache.DateData Unit)
        ["a"]).1.events =
      [TieredCache.Ev.delete [],
       TieredCache.Ev.update (TieredCache.buildStatusData
         (JsMap.empty : JsMap String (TieredCache.TierEntry DateTieredCache.DateTier DateTieredCache.DateData)))] := by
  constructor
  · rfl
  · rfl

/-- Witness for C3 at concrete inputs. -/
theorem C3_witness :
    (TieredCache.delete
        (TieredCache.set DateTieredCache.dateHooks
          (TieredCache.initial :
            TieredCache.State String DateTieredCache.DateTier DateTieredCache.DateData Unit)
          "k" DateTieredCache.DateTier.model (DateTieredCache.DateData.model (some 0)) none).1
        "k").2 = true ∧
    (TieredCache.delete
        (TieredCache.set DateTieredCache.dateHooks
          (TieredCache.initial :
            TieredCache.State String DateTieredCache.DateTier DateTieredCache.DateData Unit)
          "k" DateTieredCache.DateTier.model (DateTieredCache.DateData.model (some 0)) none).1
        "x").1.events =
      (TieredCache.set DateTieredCache.dateHooks
          (TieredCache.initial :
            TieredCache.State String DateTieredCache.DateTier DateTieredCache.DateData Unit)
          "k" DateTieredCache.DateTier.model (DateTieredCache.DateData.model (some 0)) none).1.events := by
  constructor
  · have h := C3_deleteKeys_always_notifies String DateTieredCache.DateTier
      DateTieredCache.DateData Unit
      (TieredCache.set DateTieredCache.dateHooks TieredCache.initial
        "k" DateTieredCache.DateTier.model (DateTieredCache.DateData.model (some 0)) none).1
      "k" []
    rw [h.1]
    decide
  · have h := C3_deleteKeys_always_notifies String DateTieredCache.DateTier
      DateTieredCache.DateData Unit
      (TieredCache.set DateTieredCache.dateHooks TieredCache.initial
        "k" DateTieredCache.DateTier.model (DateTieredCache.DateData.model (some 0)) none).1
      "x" []
    exact (h.2.1 (by decide)).1

/-- Claim C4 (amended): after any sequence of public operations EACH OF
WHICH COMPLETES WITHOUT A HOOK EXCEPTION, the cached status snapshot
satisfies `size = Σ tiers[t]`, `size` equals the number of stored keys,
and `tiers[t]` counts the entries currently tagged `t`; `status()`
returns the cached snapshot without recomputing (recomputation is
performed eagerly inside each completing mutating operation).  The
completion proviso is necessary: a `set` whose timeout hook throws
stores the entry but propagates before the rebuild, leaving the
snapshot behind the storage (see the counterexample). -/
theorem C4_status_consistency :
    ∀ (Key Tier Data E : Type) [DecidableEq Key] [DecidableEq Tier] [DecidableEq Data]
      [Fintype Tier] (H : TieredCache.Hooks Key Tier Data E)
      (s : TieredCache.State Key Tier Data E), TieredCache.ReachPub H s →
      (s.statusData.size = s.cache.size ∧
       (∀ t, s.statusData.tiers t = TieredCache.countTier s.cache t) ∧
       s.statusData.size = ∑ t : Tier, s.statusData.tiers t ∧
       TieredCache.status s = s.statusData) := by
  intro Key Tier Data E instK instT instD instF H s h
  have hs := TieredCache.reach_sinv H s h
  refine ⟨hs.1, hs.2, ?_, rfl⟩
  rw [hs.1]
  have h1 : (∑ t : Tier, s.statusData.tiers t) =
      ∑ t : Tier, TieredCache.countTier s.cache t :=
    Finset.sum_congr rfl (fun t _ => hs.2 t)
  rw [h1]
  exact (TieredCache.sum_filter_tier s.cache.alive).symm
/-- A concrete reachable state of the reference `DateTieredCache` strategy:
two entries stored in different tiers via two successful `set` calls. -/
def C4exState : TieredCache.State String DateTieredCache.DateTier DateTieredCache.DateData Unit :=
  (TieredCache.set DateTieredCache.dateHooks
    (TieredCache.set DateTieredCache.dateHooks TieredCache.initial
      "a" DateTieredCache.DateTier.model (DateTieredCache.DateData.model (some 3)) none).1
    "b" DateTieredCache.DateTier.object (DateTieredCache.DateData.object (DateTieredCache.Json.obj [("$cdate", DateTieredCache.Json.num (some 5))])) none).1

/-- Witness for C4: the invariant holds at the concrete state `C4exState`. -/
theorem C4_witness :
    C4exState.statusData.size = C4exState.cache.size ∧
    (∀ t, C4exState.statusData.tiers t = TieredCache.countTier C4exState.cache t) ∧
    C4exState.statusData.size =
      (∑ t : DateTieredCache.DateTier, C4exState.statusData.tiers t) ∧
    TieredCache.status C4exState = C4exState.statusData :=
  C4_status_consistency String DateTieredCache.DateTier DateTieredCache.DateData Unit
    DateTieredCache.dateHooks C4exState
    (TieredCache.ReachPub.set "b" DateTieredCache.DateTier.object
      (DateTieredCache.DateData.object (DateTieredCache.Json.obj [("$cdate", DateTieredCache.Json.num (some 5))])) none
      (TieredCache.ReachPub.set "a" DateTieredCache.DateTier.model
        (DateTieredCache.DateData.model (some 3)) none
        TieredCache.ReachPub.init rfl)
      rfl)

/-- Claim C5: at most one live timer exists per key at any instant, in
both the timer-expiring cache and the tiered engine.  For the
timer-expiring cache this holds at every reachable state, and a `set`
with an explicit expiry leaves exactly one pending firing for that key.
For the engine it holds at every reachable state provided the strategy's
timeout hook preserves the timer discipline (the reference subclass
does), and the arming primitive `setTimeout` — used by `set`,
`setEntries` and read-refresh — first cancels any prior timer and leaves
exactly the one new firing pending for the key. -/
theorem C5_single_timer_per_key :
    ∀ (K P Key Tier Data E : Type) [DecidableEq K] [DecidableEq P]
      [DecidableEq Key] [DecidableEq Tier] [DecidableEq Data]
      (tr : P → Bool) (s : ExpireTimeoutCache.State K P)
      (H : TieredCache.Hooks Key Tier Data E)
      (u : TieredCache.State Key Tier Data E),
      ExpireTimeoutCache.Reach tr s → TieredCache.HookTimerSafe H →
      TieredCache.ReachT H u →
      ((∀ k, ExpireTimeoutCache.countPending s k ≤ 1) ∧
       (∀ k v t, ExpireTimeoutCache.countPending
           (ExpireTimeoutCache.set s k v (some t)) k = 1) ∧
       (∀ k, TieredCache.countPending u k ≤ 1) ∧
       (∀ k t, (TieredCache.setTimeout u k (some t)).pending.filter
           (fun p => decide (p.2.1 = k)) = [(u.nextId, k, u.now + t)])) := by
  intro K P Key Tier Data E iK iP iK2 iT iD tr s H u hs hsafe hu
  have hwfs := ExpireTimeoutCache.reach_timerWF tr s hs
  have hwfu := TieredCache.reachT_timerWF H hsafe u hu
  refine ⟨fun k => ExpireTimeoutCache.countPending_le_one_etc s hwfs k, ?_, ?_, ?_⟩
  · intro k v t
    have h2 := (ExpireTimeoutCache.set_spec s k v (some t) hwfs).2
    rw [h2]
    simp [ExpireTimeoutCache.getExpireDate]
  · exact fun k => TieredCache.countPending_le_one u hwfu k
  · intro k t
    exact (TieredCache.setTimeout_spec u k (some t) hwfu).2

/-- Witness for C5: concrete instantiations — a `set` with an explicit
expiry on the fresh timer-expiring cache leaves exactly one pending
firing, and arming the engine's timer at the fresh state with the
reference hooks leaves exactly the single new firing. -/
theorem C5_witness :
    ExpireTimeoutCache.countPending
      (ExpireTimeoutCache.set
        (ExpireTimeoutCache.initial (some 5) : ExpireTimeoutCache.State String String)
        "k" "v" (some 7)) "k" = 1 ∧
    (TieredCache.setTimeout
      (TieredCache.initial :
        TieredCache.State String DateTieredCache.DateTier DateTieredCache.DateData Unit)
      "k" (some 7)).pending.filter (fun p => decide (p.2.1 = "k")) =
      [(1, "k", 7)] := by
  have h := C5_single_timer_per_key String String String
    DateTieredCache.DateTier DateTieredCache.DateData Unit
    (fun p => decide (p ≠ ""))
    (ExpireTimeoutCache.initial (some 5))
    DateTieredCache.dateHooks TieredCache.initial
    (ExpireTimeoutCache.Reach.init (some 5))
    DateTieredCache.dateHooks_timerSafe
    TieredCache.ReachT.init
  exact ⟨h.2.1 "k" "v" 7, h.2.2.2 "k" 7⟩

/-- Claim C2 (amended): when `get(key, tier, timeout?)` reprojects the
stored entry to a value, the call returns that value; the key's timer is
reset to `timeout ?? DefaultTimeout(tier)` ONLY when the reprojected
value is truthy — `get` guards the refresh with `if (value)`, so a falsy
reprojected value (for example the empty string at the string tier)
leaves the state, and hence the key's previously armed expiry, entirely
unchanged. -/
theorem C2_get_truthy_refreshes_timer :
    ∀ (Key Tier Data E : Type) [DecidableEq Key] [DecidableEq Tier]
      [DecidableEq Data] (H : TieredCache.Hooks Key Tier Data E)
      (s : TieredCache.State Key Tier Data E) (k : Key) (tier : Tier)
      (timeout : Option Nat) (v : Data),
      TieredCache.TimerWF s →
      H.handleCacheEntry k tier (s.cache.get k) = Except.ok (some v) →
      ((TieredCache.get H s k tier timeout).2 = Except.ok (some v) ∧
       (H.truthy v = true →
         ∀ t, timeout.orElse (fun _ => H.handleTierDefaultTimeout tier) = some t →
           (TieredCache.get H s k tier timeout).1.pending.filter
             (fun p => decide (p.2.1 = k)) = [(s.nextId, k, s.now + t)]) ∧
       (H.truthy v = false → (TieredCache.get H s k tier timeout).1 = s)) := by
  intro Key Tier Data E iK iT iD H s k tier timeout v hwf hhce
  refine ⟨?_, ?_, ?_⟩
  · simp only [TieredCache.get, hhce]
    cases htv : H.truthy v <;> simp [htv]
  · intro htv t happ
    simp only [TieredCache.get, hhce, htv, if_true]
    rw [happ]
    simpa using (TieredCache.setTimeout_spec s k (some t) hwf).2
  · intro htv
    simp [TieredCache.get, hhce, htv]

/-- A cache holding a falsy value: the empty string was stored at the
string tier with a 100 ms timeout, and 60 ms have elapsed. -/
def C2exState : TieredCache.State String DateTieredCache.DateTier DateTieredCache.DateData Unit :=
  { (TieredCache.set DateTieredCache.dateHooks
      (TieredCache.initial :
        TieredCache.State String DateTieredCache.DateTier DateTieredCache.DateData Unit)
      "k" DateTieredCache.DateTier.stringValue
      (DateTieredCache.DateData.stringValue "") (some 100)).1
    with now := 60 }

/-- Counterexample to C2 as stated: the entry for `"k"` reprojects to a
value (the empty string), yet `get` does not refresh its time-to-live —
the state (including the pending firing armed at 100) is unchanged, so
the key still expires at the original deadline. -/
theorem C2_counterexample :
    (TieredCache.get DateTieredCache.dateHooks C2exState "k"
      DateTieredCache.DateTier.stringValue none).2 =
      Except.ok (some (DateTieredCache.DateData.stringValue "")) ∧
    (TieredCache.get DateTieredCache.dateHooks C2exState "k"
      DateTieredCache.DateTier.stringValue none).1 = C2exState ∧
    C2exState.pending = [(1, "k", 100)] :=
  ⟨rfl, rfl, rfl⟩

/-- A cache holding a truthy value stored at the model tier. -/
def C2wState : TieredCache.State String DateTieredCache.DateTier DateTieredCache.DateData Unit :=
  (TieredCache.set DateTieredCache.dateHooks
    (TieredCache.initial :
      TieredCache.State String DateTieredCache.DateTier DateTieredCache.DateData Unit)
    "k" DateTieredCache.DateTier.model (DateTieredCache.DateData.model (some 3)) none).1

/-- Witness for C2 (amended): at a concrete state with a truthy model
entry, `get` with an explicit 7 ms timeout returns the value and leaves
exactly one pending firing for the key at `now + 7`. -/
theorem C2_witness :
    (TieredCache.get DateTieredCache.dateHooks C2wState "k"
      DateTieredCache.DateTier.model (some 7)).2 =
      Except.ok (some (DateTieredCache.DateData.model (some 3))) ∧
    (TieredCache.get DateTieredCache.dateHooks C2wState "k"
      DateTieredCache.DateTier.model (some 7)).1.pending.filter
      (fun p => decide (p.2.1 = "k")) = [(2, "k", 7)] := by
  have h := C2_get_truthy_refreshes_timer String DateTieredCache.DateTier
    DateTieredCache.DateData Unit DateTieredCache.dateHooks C2wState "k"
    DateTieredCache.DateTier.model (some 7) (DateTieredCache.DateData.model (some 3))
    (by decide) rfl
  exact ⟨h.1, h.2.1 rfl 7 rfl⟩

/-- Claim C6: a strategy hook exception raised during a direct public
call propagates uncaught to the caller — `get` returns the reprojection
error with the state untouched, and `set` / `setEntries` return the
timeout-hook error before emitting any event (the entry write that
precedes the hook call persists) — while an exception raised by the
tier-timeout hook during a fired timer is caught at top level and only
logged: `runTimeout` returns normally with the error appended to the log
and performs no retry, no re-arm and no event. -/
theorem C6_hook_error_policy :
    ∀ (Key Tier Data E : Type) [DecidableEq Key] [DecidableEq Tier]
      [DecidableEq Data] (H : TieredCache.Hooks Key Tier Data E)
      (s : TieredCache.State Key Tier Data E) (k : Key) (tier : Tier)
      (d : Data) (timeout : Option Nat) (rest : List (Key × Data)) (e : E),
      ((H.handleCacheEntry k tier (s.cache.get k) = Except.error e →
         TieredCache.get H s k tier timeout = (s, Except.error e)) ∧
       (H.handleTimeoutValue k tier d = Except.error e →
         TieredCache.set H s k tier d none =
           ({ s with cache := s.cache.set k ⟨tier, d⟩ }, Except.error e)) ∧
       (H.handleTimeoutValue k tier d = Except.error e →
         TieredCache.setEntries H s tier ((k, d) :: rest) none =
           ({ s with cache := s.cache.set k ⟨tier, d⟩ }, Except.error e)) ∧
       (∀ s', H.handleTierTimeout k s = (s', Except.error e) →
         TieredCache.runTimeout H k s =
           { s' with loggedErrors := s'.loggedErrors ++ [e] })) := by
  intro Key Tier Data E iK iT iD H s k tier d timeout rest e
  refine ⟨?_, ?_, ?_, ?_⟩
  · intro h
    simp [TieredCache.get, h]
  · intro h
    simp [TieredCache.set, TieredCache.handleSetValue, h]
  · intro h
    simp [TieredCache.setEntries, TieredCache.setEntriesLoop,
      TieredCache.handleSetValue, h]
  · intro s' h
    simp [TieredCache.runTimeout, h]

/-- A strategy whose hooks all throw, with distinct error payloads. -/
def errHooks : TieredCache.Hooks String DateTieredCache.DateTier DateTieredCache.DateData Nat :=
  { truthy := DateTieredCache.dateTruthy
    handleCacheEntry := fun _ _ _ => Except.error 1
    handleTimeoutValue := fun _ _ _ => Except.error 2
    handleTierDefaultTimeout := fun _ => some 100
    handleTierTimeout := fun _ s => (s, Except.error 3) }

/-- Witness for C6: with throwing hooks at the fresh state, `get`, `set`
and `setEntries` surface the hook error to the caller, while a fired
timer only logs it. -/
theorem C6_witness :
    TieredCache.get errHooks
      (TieredCache.initial :
        TieredCache.State String DateTieredCache.DateTier DateTieredCache.DateData Nat)
      "k" DateTieredCache.DateTier.model none =
      (TieredCache.initial, Except.error 1) ∧
    TieredCache.set errHooks
      (TieredCache.initial :
        TieredCache.State String DateTieredCache.DateTier DateTieredCache.DateData Nat)
      "k" DateTieredCache.DateTier.model (DateTieredCache.DateData.model (some 3)) none =
      ({ (TieredCache.initial :
          TieredCache.State String DateTieredCache.DateTier DateTieredCache.DateData Nat) with
          cache := (TieredCache.initial :
            TieredCache.State String DateTieredCache.DateTier DateTieredCache.DateData Nat).cache.set
            "k" ⟨DateTieredCache.DateTier.model, DateTieredCache.DateData.model (some 3)⟩ },
       Except.error 2) ∧
    TieredCache.setEntries errHooks
      (TieredCache.initial :
        TieredCache.State String DateTieredCache.DateTier DateTieredCache.DateData Nat)
      DateTieredCache.DateTier.model [("k", DateTieredCache.DateData.model (some 3))] none =
      ({ (TieredCache.initial :
          TieredCache.State String DateTieredCache.DateTier DateTieredCache.DateData Nat) with
          cache := (TieredCache.initial :
            TieredCache.State String DateTieredCache.DateTier DateTieredCache.DateData Nat).cache.set
            "k" ⟨DateTieredCache.DateTier.model, DateTieredCache.DateData.model (some 3)⟩ },
       Except.error 2) ∧
    TieredCache.runTimeout errHooks "k"
      (TieredCache.initial :
        TieredCache.State String DateTieredCache.DateTier DateTieredCache.DateData Nat) =
      { (TieredCache.initial :
          TieredCache.State String DateTieredCache.DateTier DateTieredCache.DateData Nat) with
          loggedErrors := [3] } := by
  have h := C6_hook_error_policy String DateTieredCache.DateTier
    DateTieredCache.DateData Nat errHooks TieredCache.initial "k"
    DateTieredCache.DateTier.model (DateTieredCache.DateData.model (some 3)) none [] 3
  have h2 := C6_hook_error_policy String DateTieredCache.DateTier
    DateTieredCache.DateData Nat errHooks TieredCache.initial "k"
    DateTieredCache.DateTier.model (DateTieredCache.DateData.model (some 3)) none [] 1
  have h3 := C6_hook_error_policy String DateTieredCache.DateTier
    DateTieredCache.DateData Nat errHooks TieredCache.initial "k"
    DateTieredCache.DateTier.model (DateTieredCache.DateData.model (some 3)) none [] 2
  exact ⟨h2.1 rfl, h3.2.1 rfl, h3.2.2.1 rfl, h.2.2.2 TieredCache.initial rfl⟩


/-- Counterexample to C4 as stated: a `set` whose timeout hook throws is
a public operation after which the invariant fails — the entry is stored
(`handleSetValue` writes before invoking the hook) but no rebuild runs,
so the cached snapshot still reports size 0 while one key is stored, and
`status()` serves that stale snapshot. -/
theorem C4_counterexample :
    (TieredCache.set errHooks
      (TieredCache.initial :
        TieredCache.State String DateTieredCache.DateTier DateTieredCache.DateData Nat)
      "k" DateTieredCache.DateTier.model (DateTieredCache.DateData.model (some 3)) none).2 =
      Except.error 2 ∧
    (TieredCache.set errHooks
      (TieredCache.initial :
        TieredCache.State String DateTieredCache.DateTier DateTieredCache.DateData Nat)
      "k" DateTieredCache.DateTier.model (DateTieredCache.DateData.model (some 3)) none).1.cache.size =
      1 ∧
    (TieredCache.set errHooks
      (TieredCache.initial :
        TieredCache.State String DateTieredCache.DateTier DateTieredCache.DateData Nat)
      "k" DateTieredCache.DateTier.model (DateTieredCache.DateData.model (some 3)) none).1.statusData.size =
      0 ∧
    (TieredCache.status
      (TieredCache.set errHooks
        (TieredCache.initial :
          TieredCache.State String DateTieredCache.DateTier DateTieredCache.DateData Nat)
        "k" DateTieredCache.DateTier.model (DateTieredCache.DateData.model (some 3)) none).1).size =
      0 :=
  ⟨rfl, rfl, rfl, rfl⟩

/-- Claim C1 (amended): the sequence yielded by `tierValues(tier)` /
`tierEntries(tier)` is computed over the LIVE backing map iterator, not a
call-time snapshot.  When no mutation interleaves with the iteration,
draining it yields exactly the entries alive at call time, in insertion
order, each reprojected into the requested tier; but a mutation performed
between yields does change which keys the rest of the sequence visits. -/
theorem C1_iteration_over_live_map :
    ∀ (Key Tier Data E : Type) [DecidableEq Key] [DecidableEq Tier]
      [DecidableEq Data] (H : TieredCache.Hooks Key Tier Data E)
      (tier : Tier) (s : TieredCache.State Key Tier Data E) (fuel : Nat),
      s.cache.slots.length ≤ fuel →
      (TieredCache.runIterValues H tier s 0 fuel =
         TieredCache.reprojectAll H tier s.cache.alive ∧
       TieredCache.runIterEntries H tier s 0 fuel =
         TieredCache.reprojectAllE H tier s.cache.alive) := by
  intro Key Tier Data E iK iT iD H tier s fuel hf
  constructor
  · have h := TieredCache.runIterValues_spec H tier s fuel 0 (by omega)
    rw [h]
    simp [JsMap.alive]
  · have h := TieredCache.runIterEntries_spec H tier s fuel 0 (by omega)
    rw [h]
    simp [JsMap.alive]

/-- Two entries inserted in order: keys `"a"` then `"b"`. -/
def C1s2 : TieredCache.State String DateTieredCache.DateTier DateTieredCache.DateData Unit :=
  (TieredCache.set DateTieredCache.dateHooks
    (TieredCache.set DateTieredCache.dateHooks
      (TieredCache.initial :
        TieredCache.State String DateTieredCache.DateTier DateTieredCache.DateData Unit)
      "a" DateTieredCache.DateTier.model (DateTieredCache.DateData.model (some 1)) (some 5)).1
    "b" DateTieredCache.DateTier.model (DateTieredCache.DateData.model (some 2)) (some 5)).1

/-- `C1s2` after `"b"` is deleted mid-iteration. -/
def C1s3 : TieredCache.State String DateTieredCache.DateTier DateTieredCache.DateData Unit :=
  (TieredCache.delete C1s2 "b").1

/-- Counterexample to C1 as stated: at call time the storage holds keys
`"a"` and `"b"`; the first iterator step yields `"a"`'s value and, if the
state is left alone, the next step would yield `"b"`'s value — but after
`delete("b")` between the yields, the same iterator position finds the
map exhausted, so the sequence never visits `"b"`. -/
theorem C1_counterexample :
    C1s2.cache.keysList = ["a", "b"] ∧
    TieredCache.tierValuesNext DateTieredCache.dateHooks
      DateTieredCache.DateTier.model C1s2 0 =
      Except.ok (some (some (DateTieredCache.DateData.model (some 1))), 1) ∧
    TieredCache.tierValuesNext DateTieredCache.dateHooks
      DateTieredCache.DateTier.model C1s2 1 =
      Except.ok (some (some (DateTieredCache.DateData.model (some 2))), 2) ∧
    TieredCache.tierValuesNext DateTieredCache.dateHooks
      DateTieredCache.DateTier.model C1s3 1 =
      Except.ok (none, 1) :=
  ⟨rfl, rfl, rfl, rfl⟩

/-- Witness for C1 (amended): draining the iterators of `C1s2` without
interleaved mutation reprojects exactly its two live entries. -/
theorem C1_witness :
    TieredCache.runIterValues DateTieredCache.dateHooks
      DateTieredCache.DateTier.model C1s2 0 2 =
      TieredCache.reprojectAll DateTieredCache.dateHooks
        DateTieredCache.DateTier.model C1s2.cache.alive ∧
    TieredCache.runIterEntries DateTieredCache.dateHooks
      DateTieredCache.DateTier.model C1s2 0 2 =
      TieredCache.reprojectAllE DateTieredCache.dateHooks
        DateTieredCache.DateTier.model C1s2.cache.alive :=
  C1_iteration_over_live_map String DateTieredCache.DateTier
    DateTieredCache.DateData Unit DateTieredCache.dateHooks
    DateTieredCache.DateTier.model C1s2 2 (by decide)
namespace DateTieredCache

end DateTieredCache

